import Mathlib

/-!
Verification of the FITS table viewer backend (`src/extension/backend/main.py`)
against its specification. The Python script is shallowly embedded: astropy
tables become association lists of named columns, the JSON objects printed to
stdout become values of an inductive JSON type, and `sys.exit` codes become the
second component of the result pair.
-/

set_option maxHeartbeats 1000000

/-- JSON-like values: the shapes written to the output stream, and the scalar
cell values held by decoded tables. -/
inductive Jval where
  | null
  | bool (b : Bool)
  | num (n : Int)
  | str (s : String)
  | arr (xs : List Jval)
  | obj (kvs : List (String × Jval))


instance : Inhabited Jval := ⟨Jval.null⟩

/-- Column payload of an astropy table: a scalar column (shape `(N,)`) or a
fixed-width vector column (shape `(N, width)`). -/
inductive ColData (α : Type) where
  | scalar (vals : List α)
  | vector (width : Nat) (vals : List (List α))


/-- One named column of an astropy `Table`. -/
structure Col (α : Type) where
  name : String
  data : ColData α


/-- An astropy `Table`: ordered list of named columns. -/
abbrev Table (α : Type) := List (Col α)

/-- The `colnames` attribute: column names in table order. -/
def colnames {α : Type} (t : Table α) : List String :=
  t.map (fun c => c.name)

/-- Column lookup `table[name]`, returning the payload of the first column with
that name (astropy tables have unique names). -/
def getColData {α : Type} (t : Table α) (n : String) : Option (ColData α) :=
  (t.find? (fun c => c.name = n)).map (fun c => c.data)

/-- Column assignment `table[name] = data`: replaces the column in place when
the name exists, otherwise appends a new column at the end. -/
def setCol {α : Type} (t : Table α) (n : String) (d : ColData α) : Table α :=
  if t.any (fun c => c.name = n) then
    t.map (fun c => if c.name = n then ⟨n, d⟩ else c)
  else t ++ [⟨n, d⟩]

/-- Column deletion `del table[name]`. -/
def delCol {α : Type} (t : Table α) (n : String) : Table α :=
  t.filter (fun c => c.name ≠ n)

/-- Length of `column.shape`: 1 for scalar columns, 2 for vector columns. -/
def shapeLen {α : Type} : ColData α → Nat
  | ColData.scalar _ => 1
  | ColData.vector _ _ => 2

/-- Whether a column payload is a (multi-dimensional) vector column. -/
def isVec {α : Type} : ColData α → Bool
  | ColData.scalar _ => false
  | ColData.vector _ _ => true

/-- Body of the `for name in names` loop of `fix_multi_dim_tables`: if the
column is still multi-dimensional, assign `table[f"{name}_{i+1}"] =
table[name][:, i]` for each `i < table[name].shape[1]` and delete the original.
The source reads `table[name]` inside the inner loop; every assigned name
`{name}_{i+1}` is strictly longer than `name`, so that lookup yields the same
unchanged column at every iteration and is read once here. -/
def flattenOne {α : Type} [Inhabited α] (t : Table α) (n : String) : Table α :=
  match getColData t n with
  | some (ColData.vector w vals) =>
    delCol ((List.range w).foldl (fun acc i =>
      setCol acc (n ++ "_" ++ toString (i + 1))
        (ColData.scalar (vals.map (fun r => r.getD i default)))) t) n
  | _ => t

/-- The list comprehension `[name for name in table.colnames if
len(table[name].shape) > 1]`. -/
def multiDimNames {α : Type} (t : Table α) : List String :=
  (colnames t).filter (fun n =>
    match getColData t n with
    | some d => shapeLen d > 1
    | none => false)

/-- The function `fix_multi_dim_tables`: splits every multi-dimensional column
into separate scalar columns, mutating the table in place. -/
def fix_multi_dim_tables {α : Type} [Inhabited α] (t : Table α) : Table α :=
  (multiDimNames t).foldl flattenOne t

/-- An HDU of an opened FITS file, as seen by the script. `isTable` records the
result of `isinstance(hdu, (fits.BinTableHDU, fits.TableHDU))`, `kindName` is
`hdu.__class__.__name__`, `nrows` is `len(hdu.data)`, and `cols` is the decoded
column data. `readErr i e` models the external astropy decoder: `none` when the
row slice `hdu.data[i:e]` decodes, `some msg` when that read raises an
exception whose `str` is `msg`. -/
structure Hdu where
  name : String
  isTable : Bool
  kindName : String
  nrows : Nat
  cols : Table Jval
  readErr : Nat → Nat → Option String

/-- Result of `fits.open`: `fnf` tells whether the raised exception was a
`FileNotFoundError`, and `msg` is `str(e)`. -/
structure OpenE where
  fnf : Bool
  msg : String

/-- The file system and container as the script observes them: the
`Path(file_path).exists()` answer and the outcome of `fits.open(file_path)`. -/
structure FitsEnv where
  pathExists : Bool
  openResult : Except OpenE (List Hdu)

/-- Row slice `data[i:e]` of one column. -/
def sliceRowsCol : ColData Jval → Nat → Nat → ColData Jval
  | ColData.scalar vs, i, e => ColData.scalar ((vs.drop i).take (e - i))
  | ColData.vector w vs, i, e => ColData.vector w ((vs.drop i).take (e - i))

/-- Row slice `hdu.data[i:e]` of a whole table. -/
def sliceRows (t : Table Jval) (i e : Nat) : Table Jval :=
  t.map (fun c => ⟨c.name, sliceRowsCol c.data i e⟩)

/-- Column selection `Table(...)[column_names]`: keeps the named columns in the
order of `ns`. The names handed to it by the script always come from the
table's own column list, so the lookup never fails. -/
def selectCols (t : Table Jval) (ns : List String) : Table Jval :=
  ns.filterMap (fun n => (t.find? (fun c => c.name = n)).map (fun c => ⟨n, c.data⟩))

/-- Number of stored entries of a column. -/
def dataLen {α : Type} : ColData α → Nat
  | ColData.scalar vs => vs.length
  | ColData.vector _ vs => vs.length

/-- Row count of a table (`len(Table(...))`): length of its columns, 0 when
there are no columns. -/
def tableNRows {α : Type} : Table α → Nat
  | [] => 0
  | c :: _ => dataLen c.data

/-- Cell of a column at row `r`, as serialized to JSON by
`to_json(orient="records")`. -/
def cellAt : ColData Jval → Nat → Jval
  | ColData.scalar vs, r => vs.getD r Jval.null
  | ColData.vector _ vs, r => Jval.arr (vs.getD r [])

/-- The record list produced by `df_chunk.to_json(orient="records")`: one JSON
object per row, mapping each column name to that row's cell. -/
def tableRecords (t : Table Jval) : List Jval :=
  (List.range (tableNRows t)).map (fun r =>
    Jval.obj (t.map (fun c => (c.name, cellAt c.data r))))

/-- Modelled from the external pandas serializer: the `schema` member of
`to_json(orient="table")`, restricted to its `fields` list, which names the
data-frame columns in order. -/
def schemaFields (t : Table Jval) : Jval :=
  Jval.obj [("fields", Jval.arr ((colnames t).map (fun n =>
    Jval.obj [("name", Jval.str n)])))]

/-- The uniform error object `{"error": str(e)}`. -/
def errObj (s : String) : Jval :=
  Jval.obj [("error", Jval.str s)]

/-- The message printed when `rows_to_process == 0`. -/
def zeroRowsMsg : Jval :=
  Jval.obj [("schema", Jval.obj [("fields", Jval.arr [])]),
            ("data", Jval.arr []), ("total_rows", Jval.num 0)]

/-- JSON encoding of an optional warning string. -/
def optStrJ : Option String → Jval
  | none => Jval.null
  | some s => Jval.str s

/-- The schema-only message sent first on the non-empty path. -/
def schemaMsg (fields : Jval) (w : Option String) (total : Nat) : Jval :=
  Jval.obj [("schema", fields), ("data", Jval.arr []),
            ("warning", optStrJ w), ("total_rows", Jval.num (total : Int))]

/-- One progress-wrapped data chunk message. -/
def dataMsgJ (records : List Jval) (progress : Nat) : Jval :=
  Jval.obj [("data", Jval.arr records), ("progress", Jval.num (progress : Int))]

/-- The f-string `f"Warning: Displaying first {max_rows} of {total_rows} rows."`. -/
def rowWarn (max_rows : Int) (total_rows : Nat) : String :=
  "Warning: Displaying first " ++ toString max_rows ++ " of " ++
    toString total_rows ++ " rows."

/-- The f-string `f"Displaying first {max_cols} of {total_cols} columns."`. -/
def colWarn (max_cols : Int) (total_cols : Nat) : String :=
  "Displaying first " ++ toString max_cols ++ " of " ++
    toString total_cols ++ " columns."

/-- The `rows_to_process` computation of `stream_table_data`. -/
def rowsToProcess (total_rows : Nat) (max_rows : Int) : Nat :=
  if max_rows > 0 ∧ (total_rows : Int) > max_rows then max_rows.toNat else total_rows

/-- The `warning_message` computation of `stream_table_data`, combining the row
and column truncation notices. -/
def warningMessage (total_rows total_cols : Nat) (max_rows max_cols : Int) :
    Option String :=
  let w1 : Option String :=
    if max_rows > 0 ∧ (total_rows : Int) > max_rows then
      some (rowWarn max_rows total_rows)
    else none
  if max_cols > 0 ∧ (total_cols : Int) > max_cols then
    match w1 with
    | some w => some (w ++ " " ++ colWarn max_cols total_cols)
    | none => some ("Warning: " ++ colWarn max_cols total_cols)
  else w1

/-- The `column_names` computation of `stream_table_data`: the native column
list, truncated to the first `max_cols` names when that cap applies. -/
def columnNamesOf (t : Table Jval) (max_cols : Int) : List String :=
  if max_cols > 0 ∧ ((colnames t).length : Int) > max_cols then
    (colnames t).take max_cols.toNat
  else colnames t

/-- The window start offsets `range(0, rows_to_process, chunk_size)` (for
positive `chunk_size`). -/
def windowStarts (n cs : Nat) : List Nat :=
  (List.range ((n + cs - 1) / cs)).map (fun j => j * cs)

/-- The chunk loop of `stream_table_data`: processes the windows whose start
offsets are `starts`, threading the cumulative `rows_sent` counter. Returns the
printed messages and the exit code (0 when the loop completes, 1 when a window
read raises and the `except` handler prints one error object and exits). -/
def streamChunks (hdu : Hdu) (cnames : List String) (n cs : Nat) :
    List Nat → Nat → List Jval × Nat
  | [], _ => ([], 0)
  | i :: rest, rows_sent =>
    let e := min (i + cs) n
    match hdu.readErr i e with
    | some err => ([errObj err], 1)
    | none =>
      let chunk := selectCols (sliceRows hdu.cols i e) cnames
      let records := tableRecords (fix_multi_dim_tables chunk)
      let sent := rows_sent + records.length
      let out := streamChunks hdu cnames n cs rest sent
      (dataMsgJ records sent :: out.1, out.2)

/-- Body of `stream_table_data` once the HDU has passed both guards: limit
computation, the zero-row early return, the schema-only message, and the chunk
loop. -/
def streamRows (hdu : Hdu) (max_rows max_cols : Int) (chunk_size : Nat) :
    List Jval × Nat :=
  let total_rows := hdu.nrows
  let total_cols := (colnames hdu.cols).length
  let rtp := rowsToProcess total_rows max_rows
  let warning := warningMessage total_rows total_cols max_rows max_cols
  let cnames := columnNamesOf hdu.cols max_cols
  if rtp = 0 then ([zeroRowsMsg], 0)
  else
    match hdu.readErr 0 1 with
    | some err => ([errObj err], 1)
    | none =>
      let temp := selectCols (sliceRows hdu.cols 0 1) cnames
      let smsg := schemaMsg (schemaFields (fix_multi_dim_tables temp)) warning rtp
      let rest := streamChunks hdu cnames rtp chunk_size (windowStarts rtp chunk_size) 0
      (smsg :: rest.1, rest.2)

/-- Body of `stream_table_data` for an in-bounds index: the
`isinstance(hdu, (fits.BinTableHDU, fits.TableHDU))` guard around
`streamRows`. -/
def streamHdu (hdu : Hdu) (hdu_index max_rows max_cols : Int) (chunk_size : Nat) :
    List Jval × Nat :=
  if hdu.isTable then streamRows hdu max_rows max_cols chunk_size
  else
    ([errObj ("HDU " ++ toString hdu_index ++ " ('" ++ hdu.name ++
      "') is not a table HDU.")], 1)

/-- The function `stream_table_data`: returns the JSON objects printed to
stdout in order, paired with the process exit code (1 when the `except`
handler ran `sys.exit(1)`, else 0). The source guards the happy path with
`if not (0 <= hdu_index < len(hdul)): raise`; here the test is stated
positively with the branches swapped. -/
def stream_table_data (env : FitsEnv) (hdu_index max_rows max_cols : Int)
    (chunk_size : Nat := 500) : List Jval × Nat :=
  match env.openResult with
  | Except.error e => ([errObj e.msg], 1)
  | Except.ok hdul =>
    if h : 0 ≤ hdu_index ∧ hdu_index < (hdul.length : Int) then
      streamHdu (hdul.get ⟨hdu_index.toNat, by omega⟩) hdu_index max_rows max_cols
        chunk_size
    else ([errObj ("HDU index " ++ toString hdu_index ++ " is out of bounds.")], 1)

/-- The function `get_hdu_info`: the single JSON value it returns (the
enumerated unit descriptors, or the caught error object). -/
def get_hdu_info (path : String) (openResult : Except OpenE (List Hdu)) : Jval :=
  match openResult with
  | Except.ok hdul =>
    Jval.arr (hdul.enum.map (fun p =>
      Jval.obj [("index", Jval.num (p.1 : Int)),
                ("name", Jval.str (if p.2.name = "" then "HDU " ++ toString p.1 else p.2.name)),
                ("is_table", Jval.bool p.2.isTable),
                ("type", Jval.str p.2.kindName)]))
  | Except.error e =>
    if e.fnf then errObj ("File not found: " ++ path)
    else errObj ("Failed to read FITS file: " ++ e.msg)

/-- The two CLI commands accepted by `main`. -/
inductive Cmd where
  | info
  | data

/-- The function `main`, after argument parsing: returns the JSON objects
printed to stdout and the process exit code. -/
def main_run (env : FitsEnv) (cmd : Cmd) (path : String) (hdu_index : Option Int)
    (max_rows max_cols : Int) : List Jval × Nat :=
  if env.pathExists then
    match cmd with
    | Cmd.info => ([get_hdu_info path env.openResult], 0)
    | Cmd.data =>
      match hdu_index with
      | none => ([errObj "HDU index is required for the 'data' command."], 1)
      | some idx => stream_table_data env idx max_rows max_cols
  else ([errObj ("File does not exist at path: " ++ path)], 1)

/-- Whether a JSON value is the uniform error object `{"error": string}`. -/
def isErr (j : Jval) : Bool :=
  match j with
  | Jval.obj kvs =>
    match kvs with
    | [kv] => kv.1 = "error" && (match kv.2 with | Jval.str _ => true | _ => false)
    | _ => false
  | _ => false

/-- Whether a JSON object carries key `k`. -/
def hasKey (j : Jval) (k : String) : Bool :=
  match j with
  | Jval.obj kvs => kvs.any (fun p => p.1 = k)
  | _ => false

/-- Top-level key list of a JSON object. -/
def keysOf : Jval → List String
  | Jval.obj kvs => kvs.map (fun p => p.1)
  | _ => []

/-- The `progress` values of the data messages of an output, in order. -/
def progressVals (out : List Jval) : List Int :=
  out.filterMap (fun j =>
    match j with
    | Jval.obj [(_, _), ("progress", Jval.num p)] => some p
    | _ => none)

/-- Modelled from the spec: the Row Limiter row policy, `maxRows <= 0` means
unlimited (effectiveRows = totalRows); otherwise effectiveRows =
min(maxRows, totalRows). -/
def effectiveRows_spec (totalRows : Nat) (maxRows : Int) : Nat :=
  if maxRows ≤ 0 then totalRows else min maxRows.toNat totalRows

/-- Modelled from the spec: the Row Limiter column policy, same rule as rows,
taking the first N names of the native (pre-flattening) column list in native
order. -/
def effectiveCols_spec (names : List String) (maxCols : Int) : List String :=
  if maxCols ≤ 0 then names else names.take (min maxCols.toNat names.length)

/-- Well-formedness of a decoded tabular HDU, as astropy guarantees it: at
least one column, distinct column names, every column holding `nrows` cells,
and vector columns of positive width. -/
def WfHdu (h : Hdu) : Prop :=
  h.cols ≠ [] ∧ (colnames h.cols).Nodup ∧
    (∀ c ∈ h.cols, dataLen c.data = h.nrows) ∧
    (∀ c ∈ h.cols, ∀ w vs, c.data = ColData.vector w vs → 0 < w)

/-- A read oracle that never fails. -/
def okRead : Nat → Nat → Option String := fun _ _ => none

/-- Sample scalar column values 0..6. -/
def sampleXVals : List Jval :=
  [Jval.num 0, Jval.num 1, Jval.num 2, Jval.num 3, Jval.num 4, Jval.num 5, Jval.num 6]

/-- Sample vector column values: seven 2-element rows. -/
def samplePosVals : List (List Jval) :=
  [[Jval.num 0, Jval.num 10], [Jval.num 1, Jval.num 11], [Jval.num 2, Jval.num 12],
   [Jval.num 3, Jval.num 13], [Jval.num 4, Jval.num 14], [Jval.num 5, Jval.num 15],
   [Jval.num 6, Jval.num 16]]

/-- Sample columns of a small well-formed tabular HDU. -/
def sampleCols : Table Jval :=
  [⟨"X", ColData.scalar sampleXVals⟩, ⟨"POS", ColData.vector 2 samplePosVals⟩]

/-- A small 7-row tabular HDU whose reads always decode. -/
def hduSmall : Hdu := ⟨"EVENTS", true, "BinTableHDU", 7, sampleCols, okRead⟩

/-- An environment holding just `hduSmall`. -/
def envSmall : FitsEnv := ⟨true, Except.ok [hduSmall]⟩

/-- A tabular HDU with zero rows. -/
def hduEmptyRows : Hdu := ⟨"Z", true, "BinTableHDU", 0, [⟨"X", ColData.scalar []⟩], okRead⟩

/-- An environment holding just `hduEmptyRows`. -/
def envZero : FitsEnv := ⟨true, Except.ok [hduEmptyRows]⟩

/-- A non-tabular HDU. -/
def hduImage : Hdu := ⟨"IMG", false, "ImageHDU", 0, [], okRead⟩

/-- An environment holding just `hduImage`. -/
def envImage : FitsEnv := ⟨true, Except.ok [hduImage]⟩

/-- An environment whose file exists but whose bytes fail to decode. -/
def envDecodeBad : FitsEnv := ⟨true, Except.error ⟨false, "bad header"⟩⟩

/-- A 7-row tabular HDU whose window read starting at row 3 raises. -/
def hduFail : Hdu :=
  ⟨"EVENTS", true, "BinTableHDU", 7, sampleCols,
   fun i _ => if i = 3 then some "boom" else none⟩

/-- An environment holding just `hduFail`. -/
def envFail : FitsEnv := ⟨true, Except.ok [hduFail]⟩

/-- A 1200-row single-column tabular HDU whose reads always decode. -/
def hduBig : Hdu :=
  ⟨"CAT", true, "BinTableHDU", 1200,
   [⟨"X", ColData.scalar (List.replicate 1200 (Jval.num 0))⟩], okRead⟩

/-- An environment holding just `hduBig`. -/
def envBig : FitsEnv := ⟨true, Except.ok [hduBig]⟩


/-- The data messages produced by a run of consecutive successfully decoded
windows with start offsets `l`, threading the cumulative `rows_sent` counter
`s` (the error-free unfolding of the chunk loop). -/
def okChunkMsgs (hdu : Hdu) (cnames : List String) (n cs : Nat) :
    List Nat → Nat → List Jval
  | [], _ => []
  | i :: rest, s =>
    let e := min (i + cs) n
    let records := tableRecords (fix_multi_dim_tables
      (selectCols (sliceRows hdu.cols i e) cnames))
    dataMsgJ records (s + records.length) ::
      okChunkMsgs hdu cnames n cs rest (s + records.length)

/-- The invariant a table chunk keeps through flattening: at least one column,
every column holding exactly `m` cells, and vector columns of positive
width. -/
def TblInv {α : Type} (m : Nat) (t : Table α) : Prop :=
  t ≠ [] ∧ (∀ c ∈ t, dataLen c.data = m) ∧
    (∀ c ∈ t, ∀ w vs, c.data = ColData.vector w vs → 0 < w)

/-- Width of a column payload: 0 for scalar columns, the fixed array length
for vector columns. -/
def widthOf {α : Type} : ColData α → Nat
  | ColData.scalar _ => 0
  | ColData.vector w _ => w

/-- The name `f"{name}_{i+1}"` assigned to the i-th slice of a flattened
column. -/
def genName (nm : String) (i : Nat) : String := nm ++ "_" ++ toString (i + 1)

/-- The slice columns `table[name][:, 0] .. table[name][:, w-1]` that
`fix_multi_dim_tables` assigns for one vector column, in order. -/
def sliceGroup {α : Type} [Inhabited α] (c : Col α) : Table α :=
  match c.data with
  | ColData.vector w vals =>
    (List.range w).map (fun i =>
      ⟨genName c.name i, ColData.scalar (vals.map (fun r => r.getD i default))⟩)
  | ColData.scalar _ => []

/-- No generated slice name collides with an existing column name (true of any
real FITS table unless a column literally named `{other}_{i}` is present). -/
def FreshNames {α : Type} (t : Table α) : Prop :=
  ∀ c ∈ t, ∀ i, i < widthOf c.data → genName c.name i ∉ colnames t

/-- Generated slice names are pairwise distinct across (and within) the vector
columns of the table. -/
def DistinctGen {α : Type} (t : Table α) : Prop :=
  ∀ c ∈ t, ∀ c2 ∈ t, ∀ i, i < widthOf c.data → ∀ j, j < widthOf c2.data →
    genName c.name i = genName c2.name j → c.name = c2.name ∧ i = j

instance {α : Type} (t : Table α) : Decidable (FreshNames t) :=
  inferInstanceAs (Decidable
    (∀ c ∈ t, ∀ i, i < widthOf c.data → genName c.name i ∉ colnames t))

instance {α : Type} (t : Table α) : Decidable (DistinctGen t) :=
  inferInstanceAs (Decidable
    (∀ c ∈ t, ∀ c2 ∈ t, ∀ i, i < widthOf c.data → ∀ j, j < widthOf c2.data →
      genName c.name i = genName c2.name j → c.name = c2.name ∧ i = j))

/-- The amended claim's description of the flattening output: the scalar
columns in native order, followed by each multi-dimensional column's slice
group, the groups in the vector columns' native order. -/
def flattenSpec {α : Type} [Inhabited α] (t : Table α) : Table α :=
  t.filter (fun c => !(isVec c.data)) ++
    (t.filter (fun c => isVec c.data)).flatMap sliceGroup

/-- A 600-row tabular HDU whose window read starting at row 500 raises (the
cell payload is irrelevant to the failure behaviour and left empty). -/
def hduMid : Hdu :=
  ⟨"EVENTS", true, "BinTableHDU", 600, [⟨"X", ColData.scalar []⟩],
   fun i _ => if i = 500 then some "boom" else none⟩

/-- An environment holding just `hduMid`. -/
def envMid : FitsEnv := ⟨true, Except.ok [hduMid]⟩

/-- A 5-row tabular HDU whose one-row schema probe read raises. -/
def hduProbe : Hdu :=
  ⟨"EVENTS", true, "BinTableHDU", 5, [⟨"X", ColData.scalar []⟩],
   fun i e => if i = 0 ∧ e = 1 then some "probe boom" else none⟩

/-- An environment holding just `hduProbe`. -/
def envProbe : FitsEnv := ⟨true, Except.ok [hduProbe]⟩

theorem mem_setCol {α : Type} {t : Table α} {n : String} {d : ColData α} {c : Col α}
    (h : c ∈ setCol t n d) : c = ⟨n, d⟩ ∨ c ∈ t := by
  unfold setCol at h
  by_cases ha : t.any (fun c => c.name = n)
  · simp only [ha, if_true] at h
    rcases List.mem_map.mp h with ⟨c0, hc0, hco⟩
    by_cases he : c0.name = n
    · simp only [he, if_true] at hco
      exact Or.inl hco.symm
    · simp only [he, if_false] at hco
      exact Or.inr (hco ▸ hc0)
  · simp only [ha, if_false] at h
    rcases List.mem_append.mp h with h1 | h1
    · exact Or.inr h1
    · exact Or.inl (List.mem_singleton.mp h1)

theorem any_name_iff {α : Type} {t : Table α} {n : String} :
    (t.any (fun c => c.name = n) = true) ↔ n ∈ colnames t := by
  simp only [List.any_eq_true, colnames, List.mem_map, decide_eq_true_eq]

theorem colnames_setCol_of_mem {α : Type} {t : Table α} {n : String} (d : ColData α)
    (h : n ∈ colnames t) : colnames (setCol t n d) = colnames t := by
  unfold setCol
  rw [if_pos (any_name_iff.mpr h)]
  unfold colnames
  rw [List.map_map]
  apply List.map_congr_left
  intro c _
  by_cases he : c.name = n
  · simp [he]
  · simp [he]

theorem colnames_setCol_of_not_mem {α : Type} {t : Table α} {n : String} (d : ColData α)
    (h : n ∉ colnames t) : colnames (setCol t n d) = colnames t ++ [n] := by
  unfold setCol
  rw [if_neg (fun hc => h (any_name_iff.mp hc))]
  simp [colnames]

theorem nodup_colnames_setCol {α : Type} {t : Table α} {n : String} {d : ColData α}
    (h : (colnames t).Nodup) : (colnames (setCol t n d)).Nodup := by
  by_cases hm : n ∈ colnames t
  · rw [colnames_setCol_of_mem d hm]; exact h
  · rw [colnames_setCol_of_not_mem d hm]
    simpa [List.nodup_append] using ⟨h, hm⟩

theorem mem_delCol {α : Type} {t : Table α} {n : String} {c : Col α}
    (h : c ∈ delCol t n) : c ∈ t ∧ c.name ≠ n := by
  unfold delCol at h
  have := List.mem_filter.mp h
  refine ⟨this.1, ?_⟩
  simpa using this.2

theorem nodup_colnames_delCol {α : Type} {t : Table α} {n : String}
    (h : (colnames t).Nodup) : (colnames (delCol t n)).Nodup := by
  apply List.Nodup.sublist _ h
  unfold delCol colnames
  exact List.Sublist.map _ (List.filter_sublist t)

theorem getColData_of_mem {α : Type} {t : Table α} {c : Col α}
    (hnd : (colnames t).Nodup) (h : c ∈ t) : getColData t c.name = some c.data := by
  induction t with
  | nil => cases h
  | cons a l ih =>
    rcases List.mem_cons.mp h with rfl | hl
    · simp [getColData, List.find?]
    · have hne : a.name ≠ c.name := by
        intro he
        have : c.name ∈ colnames l := List.mem_map.mpr ⟨c, hl, rfl⟩
        rw [← he] at this
        exact (List.nodup_cons.mp hnd).1 this
      have hnd' : (colnames l).Nodup := (List.nodup_cons.mp hnd).2
      simp only [getColData, List.find?]
      rw [decide_eq_false hne]
      exact ih hnd' hl

theorem foldl_setCol_nodup {α : Type} (g : Nat → String) (dd : Nat → ColData α) :
    ∀ (l : List Nat) (t : Table α), (colnames t).Nodup →
      (colnames (l.foldl (fun acc i => setCol acc (g i) (dd i)) t)).Nodup := by
  intro l
  induction l with
  | nil => intro t h; exact h
  | cons a l ih =>
    intro t h
    exact ih _ (nodup_colnames_setCol h)

theorem foldl_setCol_vec_mem {α : Type} (g : Nat → String) (dd : Nat → ColData α)
    (hs : ∀ i, isVec (dd i) = false) :
    ∀ (l : List Nat) (t : Table α) (c : Col α),
      c ∈ l.foldl (fun acc i => setCol acc (g i) (dd i)) t →
      isVec c.data = true → c ∈ t := by
  intro l
  induction l with
  | nil => intro t c h _; exact h
  | cons a l ih =>
    intro t c h hv
    rcases mem_setCol (ih _ c h hv) with rfl | hm
    · rw [show (⟨g a, dd a⟩ : Col α).data = dd a from rfl, hs a] at hv
      cases hv
    · exact hm

theorem nodup_colnames_flattenOne {α : Type} [Inhabited α] {t : Table α} {n : String}
    (h : (colnames t).Nodup) : (colnames (flattenOne t n)).Nodup := by
  unfold flattenOne
  rcases hg : getColData t n with _ | d
  · exact h
  · rcases d with vs | ⟨w, vals⟩
    · exact h
    · exact nodup_colnames_delCol (foldl_setCol_nodup _ _ _ t h)

theorem flattenOne_vec_mem {α : Type} [Inhabited α] {t : Table α} {n : String} {c : Col α}
    (hnd : (colnames t).Nodup) (hc : c ∈ flattenOne t n) (hv : isVec c.data = true) :
    c ∈ t ∧ c.name ≠ n := by
  unfold flattenOne at hc
  rcases hg : getColData t n with _ | d
  · rw [hg] at hc
    have hct : c ∈ t := hc
    refine ⟨hct, fun he => ?_⟩
    have h2 := getColData_of_mem hnd hct
    rw [he, hg] at h2
    cases h2
  · rcases d with vs | ⟨w, vals⟩
    · rw [hg] at hc
      have hct : c ∈ t := hc
      refine ⟨hct, fun he => ?_⟩
      have h2 := getColData_of_mem hnd hct
      rw [he, hg] at h2
      have h3 : c.data = ColData.scalar vs := (Option.some_inj.mp h2).symm
      rw [h3] at hv
      simp [isVec] at hv
    · rw [hg] at hc
      have h1 := mem_delCol hc
      refine ⟨?_, h1.2⟩
      exact foldl_setCol_vec_mem (fun i => n ++ "_" ++ toString (i + 1))
        (fun i => ColData.scalar (vals.map (fun r => r.getD i default)))
        (fun i => rfl) (List.range w) t c h1.1 hv

theorem foldl_flattenOne_allScalar {α : Type} [Inhabited α] :
    ∀ (l : List String) (t : Table α), (colnames t).Nodup →
      (∀ c ∈ t, isVec c.data = true → c.name ∈ l) →
      ∀ c ∈ l.foldl flattenOne t, isVec c.data = false := by
  intro l
  induction l with
  | nil =>
    intro t _ hcond c hc
    by_contra hb
    have hv : isVec c.data = true := by
      cases hvv : isVec c.data
      · exact absurd hvv hb
      · rfl
    exact absurd (hcond c hc hv) (List.not_mem_nil _)
  | cons n l ih =>
    intro t hnd hcond c hc
    refine ih (flattenOne t n) (nodup_colnames_flattenOne hnd) ?_ c hc
    intro c0 hc0 hv0
    have h1 := flattenOne_vec_mem hnd hc0 hv0
    rcases List.mem_cons.mp (hcond c0 h1.1 hv0) with he | hm
    · exact absurd he h1.2
    · exact hm

theorem fix_allScalar {α : Type} [Inhabited α] {t : Table α}
    (h : (colnames t).Nodup) : ∀ c ∈ fix_multi_dim_tables t, isVec c.data = false := by
  apply foldl_flattenOne_allScalar (multiDimNames t) t h
  intro c hc hv
  unfold multiDimNames
  rw [List.mem_filter]
  refine ⟨List.mem_map.mpr ⟨c, hc, rfl⟩, ?_⟩
  rw [getColData_of_mem h hc]
  rcases hd : c.data with vs | ⟨w, vals⟩
  · rw [hd] at hv; cases hv
  · simp [shapeLen]

theorem fix_eq_self_of_allScalar {α : Type} [Inhabited α] {t : Table α}
    (h : ∀ c ∈ t, isVec c.data = false) : fix_multi_dim_tables t = t := by
  unfold fix_multi_dim_tables
  have hmd : multiDimNames t = [] := by
    unfold multiDimNames
    rw [List.filter_eq_nil_iff]
    intro n hn
    rcases hg : getColData t n with _ | d
    · simp
    · unfold getColData at hg
      rcases Option.map_eq_some'.mp hg with ⟨c, hf, hcd⟩
      have hcm : c ∈ t := List.mem_of_find?_eq_some hf
      have hsc := h c hcm
      rcases hdd : c.data with vs | ⟨w, vals⟩
      · rw [hdd] at hcd
        rw [← hcd]
        simp [shapeLen]
      · rw [hdd] at hsc
        simp [isVec] at hsc
  rw [hmd]
  rfl

/-- C1: FALSIFIED as stated. For the unit of the spec's own example — a
3-element vector column `POS` followed by a scalar column `FLUX` — the derived
column order is NOT `[POS_1, POS_2, POS_3, FLUX]`: `fix_multi_dim_tables`
appends the split columns at the end of the table, yielding
`[FLUX, POS_1, POS_2, POS_3]`. -/
theorem C1_counterexample :
    colnames (fix_multi_dim_tables
      [⟨"POS", ColData.vector 3 [[Jval.num 1, Jval.num 2, Jval.num 3]]⟩,
       ⟨"FLUX", ColData.scalar [Jval.num 4]⟩]) ≠
      ["POS_1", "POS_2", "POS_3", "FLUX"] := by decide

/-- C10: CONFIRMED. On every table whose columns are scalar or fixed-width
vector columns (and whose column names are distinct, as astropy tables
guarantee), `fix_multi_dim_tables` is idempotent: after one application no
remaining column has more than one dimension, so a second application is the
identity. -/
theorem C10_flatten_idempotent {α : Type} [Inhabited α] (t : Table α)
    (h : (colnames t).Nodup) :
    fix_multi_dim_tables (fix_multi_dim_tables t) = fix_multi_dim_tables t :=
  fix_eq_self_of_allScalar (fix_allScalar h)

/-- Witness for C10 at a concrete two-column table. -/
theorem C10_flatten_idempotent_witness :
    (colnames [(⟨"POS", ColData.vector 3 [[Jval.num 1, Jval.num 2, Jval.num 3]]⟩ : Col Jval),
       ⟨"FLUX", ColData.scalar [Jval.num 4]⟩]).Nodup ∧
      fix_multi_dim_tables (fix_multi_dim_tables
          [(⟨"POS", ColData.vector 3 [[Jval.num 1, Jval.num 2, Jval.num 3]]⟩ : Col Jval),
           ⟨"FLUX", ColData.scalar [Jval.num 4]⟩]) =
        fix_multi_dim_tables
          [(⟨"POS", ColData.vector 3 [[Jval.num 1, Jval.num 2, Jval.num 3]]⟩ : Col Jval),
           ⟨"FLUX", ColData.scalar [Jval.num 4]⟩] :=
  ⟨by decide, C10_flatten_idempotent _ (by decide)⟩

theorem isErr_errObj (s : String) : isErr (errObj s) = true := rfl

theorem isErr_dataMsgJ (records : List Jval) (p : Nat) :
    isErr (dataMsgJ records p) = false := rfl

theorem isErr_schemaMsg (f : Jval) (w : Option String) (total : Nat) :
    isErr (schemaMsg f w total) = false := rfl

theorem isErr_zeroRowsMsg : isErr zeroRowsMsg = false := rfl

theorem hasKey_dataMsgJ_warning (records : List Jval) (p : Nat) :
    hasKey (dataMsgJ records p) "warning" = false := rfl

theorem hasKey_errObj_warning (s : String) : hasKey (errObj s) "warning" = false := by
  simp [hasKey, errObj]

theorem streamRows_zero {hdu : Hdu} {max_rows : Int} (max_cols : Int) (cs : Nat)
    (h : rowsToProcess hdu.nrows max_rows = 0) :
    streamRows hdu max_rows max_cols cs = ([zeroRowsMsg], 0) := by
  unfold streamRows
  rw [if_pos h]

theorem streamRows_pos {hdu : Hdu} {max_rows : Int} (max_cols : Int) (cs : Nat)
    (h : rowsToProcess hdu.nrows max_rows ≠ 0) (hp : hdu.readErr 0 1 = none) :
    streamRows hdu max_rows max_cols cs =
      (schemaMsg
          (schemaFields (fix_multi_dim_tables
            (selectCols (sliceRows hdu.cols 0 1) (columnNamesOf hdu.cols max_cols))))
          (warningMessage hdu.nrows (colnames hdu.cols).length max_rows max_cols)
          (rowsToProcess hdu.nrows max_rows) ::
        (streamChunks hdu (columnNamesOf hdu.cols max_cols)
          (rowsToProcess hdu.nrows max_rows) cs
          (windowStarts (rowsToProcess hdu.nrows max_rows) cs) 0).1,
       (streamChunks hdu (columnNamesOf hdu.cols max_cols)
          (rowsToProcess hdu.nrows max_rows) cs
          (windowStarts (rowsToProcess hdu.nrows max_rows) cs) 0).2) := by
  unfold streamRows
  rw [if_neg h, hp]

theorem streamRows_probe_fail {hdu : Hdu} {max_rows : Int} {emsg : String}
    (max_cols : Int) (cs : Nat)
    (h : rowsToProcess hdu.nrows max_rows ≠ 0) (hp : hdu.readErr 0 1 = some emsg) :
    streamRows hdu max_rows max_cols cs = ([errObj emsg], 1) := by
  unfold streamRows
  rw [if_neg h, hp]

theorem stream_eq_streamHdu {env : FitsEnv} {hdul : List Hdu} {idx : Int}
    (hop : env.openResult = Except.ok hdul)
    (h0 : 0 ≤ idx) (h1 : idx < (hdul.length : Int)) (mr mc : Int) (cs : Nat)
    (hlt : idx.toNat < hdul.length) :
    stream_table_data env idx mr mc cs =
      streamHdu (hdul.get ⟨idx.toNat, hlt⟩) idx mr mc cs := by
  unfold stream_table_data
  rw [hop]
  exact dif_pos ⟨h0, h1⟩

theorem stream_out_of_bounds {env : FitsEnv} {hdul : List Hdu} {idx : Int}
    (hop : env.openResult = Except.ok hdul)
    (h : ¬(0 ≤ idx ∧ idx < (hdul.length : Int))) (mr mc : Int) (cs : Nat) :
    stream_table_data env idx mr mc cs =
      ([errObj ("HDU index " ++ toString idx ++ " is out of bounds.")], 1) := by
  unfold stream_table_data
  rw [hop]
  exact dif_neg h

theorem streamChunks_ok {hdu : Hdu} {cnames : List String} {n cs : Nat} :
    ∀ (l : List Nat) (s : Nat),
      (∀ i ∈ l, hdu.readErr i (min (i + cs) n) = none) →
      streamChunks hdu cnames n cs l s = (okChunkMsgs hdu cnames n cs l s, 0) := by
  intro l
  induction l with
  | nil => intro s _; rfl
  | cons i rest ih =>
    intro s hok
    have hi := hok i (List.mem_cons_self i rest)
    unfold streamChunks okChunkMsgs
    simp only [hi]
    rw [ih _ (fun a ha => hok a (List.mem_cons_of_mem i ha))]

theorem streamChunks_fail {hdu : Hdu} {cnames : List String} {n cs : Nat}
    {i : Nat} {l2 : List Nat} {emsg : String}
    (hf : hdu.readErr i (min (i + cs) n) = some emsg) :
    ∀ (l1 : List Nat) (s : Nat),
      (∀ a ∈ l1, hdu.readErr a (min (a + cs) n) = none) →
      streamChunks hdu cnames n cs (l1 ++ i :: l2) s =
        (okChunkMsgs hdu cnames n cs l1 s ++ [errObj emsg], 1) := by
  intro l1
  induction l1 with
  | nil =>
    intro s _
    rw [List.nil_append]
    unfold streamChunks okChunkMsgs
    simp only [hf]
    rfl
  | cons a rest ih =>
    intro s hok
    have ha := hok a (List.mem_cons_self a rest)
    rw [List.cons_append]
    unfold streamChunks okChunkMsgs
    simp only [ha]
    rw [ih _ (fun b hb => hok b (List.mem_cons_of_mem a hb))]
    rfl

theorem okChunkMsgs_all_data {hdu : Hdu} {cnames : List String} {n cs : Nat} :
    ∀ (l : List Nat) (s : Nat) (m : Jval), m ∈ okChunkMsgs hdu cnames n cs l s →
      ∃ records p, m = dataMsgJ records p := by
  intro l
  induction l with
  | nil => intro s m hm; cases hm
  | cons i rest ih =>
    intro s m hm
    unfold okChunkMsgs at hm
    rcases List.mem_cons.mp hm with rfl | hm2
    · exact ⟨_, _, rfl⟩
    · exact ih _ m hm2

theorem streamChunks_code {hdu : Hdu} {cnames : List String} {n cs : Nat} :
    ∀ (l : List Nat) (s : Nat),
      ((streamChunks hdu cnames n cs l s).2 = 0 ∧
        (streamChunks hdu cnames n cs l s).1.countP isErr = 0) ∨
      ((streamChunks hdu cnames n cs l s).2 = 1 ∧
        (streamChunks hdu cnames n cs l s).1.countP isErr = 1) := by
  intro l
  induction l with
  | nil => exact fun s => Or.inl ⟨rfl, rfl⟩
  | cons i rest ih =>
    intro s
    unfold streamChunks
    rcases hr : hdu.readErr i (min (i + cs) n) with _ | emsg
    · simp only [hr]
      rcases ih (s + (tableRecords (fix_multi_dim_tables
          (selectCols (sliceRows hdu.cols i (min (i + cs) n)) cnames))).length) with
        ⟨hc, hcount⟩ | ⟨hc, hcount⟩
      · refine Or.inl ⟨hc, ?_⟩
        rw [List.countP_cons, hcount, isErr_dataMsgJ]
        rfl
      · refine Or.inr ⟨hc, ?_⟩
        rw [List.countP_cons, hcount, isErr_dataMsgJ]
        rfl
    · simp only [hr]
      refine Or.inr ⟨trivial, ?_⟩
      rw [List.countP_cons, isErr_errObj]
      rfl

theorem streamRows_code_err (hdu : Hdu) (mr mc : Int) (cs : Nat) :
    ((streamRows hdu mr mc cs).2 = 0 ∨ (streamRows hdu mr mc cs).2 = 1) ∧
      ((streamRows hdu mr mc cs).2 = 1 →
        (streamRows hdu mr mc cs).1.countP isErr = 1) := by
  by_cases hz : rowsToProcess hdu.nrows mr = 0
  · rw [streamRows_zero mc cs hz]
    exact ⟨Or.inl rfl, fun h => by simp at h⟩
  · rcases hp : hdu.readErr 0 1 with _ | emsg
    · rw [streamRows_pos mc cs hz hp]
      rcases @streamChunks_code hdu (columnNamesOf hdu.cols mc)
          (rowsToProcess hdu.nrows mr) cs
          (windowStarts (rowsToProcess hdu.nrows mr) cs) 0 with
        ⟨hc, hcount⟩ | ⟨hc, hcount⟩
      · refine ⟨Or.inl hc, fun h => ?_⟩
        rw [hc] at h
        simp at h
      · refine ⟨Or.inr hc, fun h => ?_⟩
        rw [List.countP_cons, hcount, isErr_schemaMsg]
        rfl
    · rw [streamRows_probe_fail mc cs hz hp]
      exact ⟨Or.inr rfl, fun _ => by rw [List.countP_cons, isErr_errObj]; rfl⟩

theorem streamHdu_code_err (hdu : Hdu) (idx mr mc : Int) (cs : Nat) :
    ((streamHdu hdu idx mr mc cs).2 = 0 ∨ (streamHdu hdu idx mr mc cs).2 = 1) ∧
      ((streamHdu hdu idx mr mc cs).2 = 1 →
        (streamHdu hdu idx mr mc cs).1.countP isErr = 1) := by
  unfold streamHdu
  by_cases ht : hdu.isTable
  · rw [if_pos ht]
    exact streamRows_code_err hdu mr mc cs
  · rw [if_neg ht]
    exact ⟨Or.inr rfl, fun _ => by rw [List.countP_cons, isErr_errObj]; rfl⟩

theorem stream_code_err (env : FitsEnv) (idx mr mc : Int) (cs : Nat) :
    ((stream_table_data env idx mr mc cs).2 = 0 ∨
        (stream_table_data env idx mr mc cs).2 = 1) ∧
      ((stream_table_data env idx mr mc cs).2 = 1 →
        (stream_table_data env idx mr mc cs).1.countP isErr = 1) := by
  rcases hop : env.openResult with e | hdul
  · have hs : stream_table_data env idx mr mc cs = ([errObj e.msg], 1) := by
      unfold stream_table_data
      rw [hop]
    rw [hs]
    exact ⟨Or.inr rfl, fun _ => by rw [List.countP_cons, isErr_errObj]; rfl⟩
  · by_cases hb : 0 ≤ idx ∧ idx < (hdul.length : Int)
    · have hlt : idx.toNat < hdul.length := by omega
      rw [stream_eq_streamHdu hop hb.1 hb.2 mr mc cs hlt]
      exact streamHdu_code_err _ idx mr mc cs
    · rw [stream_out_of_bounds hop hb mr mc cs]
      exact ⟨Or.inr rfl, fun _ => by rw [List.countP_cons, isErr_errObj]; rfl⟩

theorem isErr_get_hdu_info_error (path : String) (e : OpenE) :
    isErr (get_hdu_info path (Except.error e)) = true := by
  simp only [get_hdu_info]
  by_cases hf : e.fnf
  · rw [if_pos hf]
    exact isErr_errObj _
  · rw [if_neg hf]
    exact isErr_errObj _

theorem main_code_err (env : FitsEnv) (cmd : Cmd) (path : String) (idx : Option Int)
    (mr mc : Int) :
    ((main_run env cmd path idx mr mc).2 = 0 ∨
        (main_run env cmd path idx mr mc).2 = 1) ∧
      ((main_run env cmd path idx mr mc).2 = 1 →
        (main_run env cmd path idx mr mc).1.countP isErr = 1) := by
  unfold main_run
  by_cases hpe : env.pathExists = true
  · rw [if_pos hpe]
    cases cmd with
    | info => exact ⟨Or.inl rfl, fun h => by simp at h⟩
    | data =>
      cases idx with
      | none => exact ⟨Or.inr rfl, fun _ => by rw [List.countP_cons, isErr_errObj]; rfl⟩
      | some i => exact stream_code_err env i mr mc 500
  · rw [if_neg hpe]
    exact ⟨Or.inr rfl, fun _ => by rw [List.countP_cons, isErr_errObj]; rfl⟩

/-- C2: FALSIFIED as stated. With an existing file whose container bytes fail
to decode, the `info` command prints exactly one `{error: string}` object but
the process exits 0, not non-zero: `main` prints the result of `get_hdu_info`
(which swallowed the exception) and never calls `sys.exit(1)` on that path. -/
theorem C2_counterexample :
    (main_run envDecodeBad Cmd.info "f.fits" none 0 0).1 =
        [errObj "Failed to read FITS file: bad header"] ∧
      (main_run envDecodeBad Cmd.info "f.fits" none 0 0).2 = 0 := ⟨rfl, rfl⟩

/-- C2 (amended): the exit code is always 0 or 1; every invocation that exits 1
writes exactly one `{error: string}` object; and each failure path of the data
command and the file-existence check — missing file, missing index, open or
decode failure, out-of-bounds index, non-tabular unit, schema-probe decode
failure, and mid-stream window decode failure — writes exactly one
`{error: string}` object and exits 1. The `info` command, however, writes the
single error object and exits 0 when the container bytes cannot be decoded, so
that failure is signaled by message only, never by the termination code. -/
theorem C2_error_channel (env : FitsEnv) (cmd : Cmd) (path : String)
    (idx : Option Int) (mr mc : Int) :
    ((main_run env cmd path idx mr mc).2 = 0 ∨
        (main_run env cmd path idx mr mc).2 = 1) ∧
      ((main_run env cmd path idx mr mc).2 = 1 →
        (main_run env cmd path idx mr mc).1.countP isErr = 1) ∧
      (∀ e, env.pathExists = true → env.openResult = Except.error e →
        cmd = Cmd.info →
        main_run env cmd path idx mr mc =
          ([get_hdu_info path (Except.error e)], 0) ∧
          isErr (get_hdu_info path (Except.error e)) = true) ∧
      (env.pathExists = false →
        main_run env cmd path idx mr mc =
          ([errObj ("File does not exist at path: " ++ path)], 1)) ∧
      (env.pathExists = true → cmd = Cmd.data → idx = none →
        main_run env cmd path idx mr mc =
          ([errObj "HDU index is required for the 'data' command."], 1)) ∧
      (∀ e i, env.pathExists = true → env.openResult = Except.error e →
        cmd = Cmd.data → idx = some i →
        main_run env cmd path idx mr mc = ([errObj e.msg], 1)) ∧
      (∀ hdul i, env.pathExists = true → env.openResult = Except.ok hdul →
        cmd = Cmd.data → idx = some i → ¬(0 ≤ i ∧ i < (hdul.length : Int)) →
        main_run env cmd path idx mr mc =
          ([errObj ("HDU index " ++ toString i ++ " is out of bounds.")], 1)) ∧
      (∀ hdul i, ∀ hlt : i.toNat < hdul.length, env.pathExists = true →
        env.openResult = Except.ok hdul → cmd = Cmd.data → idx = some i →
        0 ≤ i → (hdul.get ⟨i.toNat, hlt⟩).isTable = false →
        main_run env cmd path idx mr mc =
          ([errObj ("HDU " ++ toString i ++ " ('" ++
            (hdul.get ⟨i.toNat, hlt⟩).name ++ "') is not a table HDU.")], 1)) ∧
      (∀ hdul i, ∀ hlt : i.toNat < hdul.length, ∀ emsg, env.pathExists = true →
        env.openResult = Except.ok hdul → cmd = Cmd.data → idx = some i →
        0 ≤ i → (hdul.get ⟨i.toNat, hlt⟩).isTable = true →
        rowsToProcess (hdul.get ⟨i.toNat, hlt⟩).nrows mr ≠ 0 →
        (hdul.get ⟨i.toNat, hlt⟩).readErr 0 1 = some emsg →
        main_run env cmd path idx mr mc = ([errObj emsg], 1)) ∧
      (∀ hdul i, ∀ hlt : i.toNat < hdul.length, ∀ (l1 l2 : List Nat) (a : Nat)
        (emsg : String), env.pathExists = true →
        env.openResult = Except.ok hdul → cmd = Cmd.data → idx = some i →
        0 ≤ i → (hdul.get ⟨i.toNat, hlt⟩).isTable = true →
        rowsToProcess (hdul.get ⟨i.toNat, hlt⟩).nrows mr ≠ 0 →
        (hdul.get ⟨i.toNat, hlt⟩).readErr 0 1 = none →
        windowStarts (rowsToProcess (hdul.get ⟨i.toNat, hlt⟩).nrows mr) 500 =
          l1 ++ a :: l2 →
        (∀ b ∈ l1, (hdul.get ⟨i.toNat, hlt⟩).readErr b
          (min (b + 500) (rowsToProcess (hdul.get ⟨i.toNat, hlt⟩).nrows mr)) =
          none) →
        (hdul.get ⟨i.toNat, hlt⟩).readErr a
          (min (a + 500) (rowsToProcess (hdul.get ⟨i.toNat, hlt⟩).nrows mr)) =
          some emsg →
        (main_run env cmd path idx mr mc).2 = 1 ∧
        (main_run env cmd path idx mr mc).1.countP isErr = 1) := by
  refine ⟨(main_code_err env cmd path idx mr mc).1,
    (main_code_err env cmd path idx mr mc).2, ?_, ?_, ?_, ?_, ?_, ?_, ?_, ?_⟩
  · intro e hpe hop hc
    subst hc
    constructor
    · unfold main_run
      rw [if_pos hpe, ← hop]
    · exact isErr_get_hdu_info_error path e
  · intro hpe
    unfold main_run
    rw [if_neg (by rw [hpe]; exact Bool.false_ne_true)]
  · intro hpe hc hi
    subst hc
    subst hi
    unfold main_run
    rw [if_pos hpe]
  · intro e i hpe hop hc hi
    subst hc
    subst hi
    unfold main_run
    rw [if_pos hpe]
    show stream_table_data env i mr mc = _
    unfold stream_table_data
    rw [hop]
  · intro hdul i hpe hop hc hi hb
    subst hc
    subst hi
    unfold main_run
    rw [if_pos hpe]
    show stream_table_data env i mr mc = _
    exact stream_out_of_bounds hop hb mr mc 500
  · intro hdul i hlt hpe hop hc hi h0 htf
    subst hc
    subst hi
    unfold main_run
    rw [if_pos hpe]
    show stream_table_data env i mr mc = _
    have h1 : i < (hdul.length : Int) := by omega
    rw [stream_eq_streamHdu hop h0 h1 mr mc 500 hlt]
    unfold streamHdu
    rw [if_neg (by rw [htf]; exact Bool.false_ne_true)]
  · intro hdul i hlt emsg hpe hop hc hi h0 ht hz hp
    subst hc
    subst hi
    unfold main_run
    rw [if_pos hpe]
    show stream_table_data env i mr mc = _
    have h1 : i < (hdul.length : Int) := by omega
    rw [stream_eq_streamHdu hop h0 h1 mr mc 500 hlt]
    unfold streamHdu
    rw [if_pos ht]
    exact streamRows_probe_fail mc 500 hz hp
  · intro hdul i hlt l1 l2 a emsg hpe hop hc hi h0 ht hz hp hw hok hf
    subst hc
    subst hi
    have h1 : i < (hdul.length : Int) := by omega
    have hs : main_run env Cmd.data path (some i) mr mc =
        (schemaMsg
            (schemaFields (fix_multi_dim_tables
              (selectCols (sliceRows (hdul.get ⟨i.toNat, hlt⟩).cols 0 1)
                (columnNamesOf (hdul.get ⟨i.toNat, hlt⟩).cols mc))))
            (warningMessage (hdul.get ⟨i.toNat, hlt⟩).nrows
              (colnames (hdul.get ⟨i.toNat, hlt⟩).cols).length mr mc)
            (rowsToProcess (hdul.get ⟨i.toNat, hlt⟩).nrows mr) ::
          (okChunkMsgs (hdul.get ⟨i.toNat, hlt⟩)
            (columnNamesOf (hdul.get ⟨i.toNat, hlt⟩).cols mc)
            (rowsToProcess (hdul.get ⟨i.toNat, hlt⟩).nrows mr) 500 l1 0 ++
            [errObj emsg]), 1) := by
      unfold main_run
      rw [if_pos hpe]
      show stream_table_data env i mr mc = _
      rw [stream_eq_streamHdu hop h0 h1 mr mc 500 hlt]
      unfold streamHdu
      rw [if_pos ht]
      rw [streamRows_pos mc 500 hz hp]
      rw [hw]
      rw [streamChunks_fail hf l1 0 hok]
    rw [hs]
    refine ⟨rfl, ?_⟩
    rw [List.countP_cons, List.countP_append, isErr_schemaMsg]
    have hc0 : (okChunkMsgs (hdul.get ⟨i.toNat, hlt⟩)
        (columnNamesOf (hdul.get ⟨i.toNat, hlt⟩).cols mc)
        (rowsToProcess (hdul.get ⟨i.toNat, hlt⟩).nrows mr) 500 l1 0).countP
        isErr = 0 := by
      rw [List.countP_eq_zero]
      intro m hm
      rcases okChunkMsgs_all_data l1 0 m hm with ⟨records, p, rfl⟩
      rw [isErr_dataMsgJ records p]
      exact Bool.false_ne_true
    rw [hc0]
    rfl

/-- Witness for C2 at concrete inputs: one instance per failure path — info
decode error (exit 0), missing file, missing index, data-command decode error,
out-of-bounds index, non-tabular unit, schema-probe failure, and a mid-stream
window failure. -/
theorem C2_error_channel_witness :
    ((main_run envSmall Cmd.info "f.fits" none 0 0).2 = 0 ∨
        (main_run envSmall Cmd.info "f.fits" none 0 0).2 = 1) ∧
      main_run envDecodeBad Cmd.info "f.fits" none 0 0 =
        ([get_hdu_info "f.fits" (Except.error ⟨false, "bad header"⟩)], 0) ∧
      main_run (FitsEnv.mk false (Except.error ⟨true, "gone"⟩)) Cmd.data "f.fits"
          (some 0) 0 0 =
        ([errObj ("File does not exist at path: " ++ "f.fits")], 1) ∧
      main_run envSmall Cmd.data "f.fits" none 0 0 =
        ([errObj "HDU index is required for the 'data' command."], 1) ∧
      main_run envDecodeBad Cmd.data "f.fits" (some 0) 0 0 =
        ([errObj "bad header"], 1) ∧
      main_run envSmall Cmd.data "f.fits" (some 5) 0 0 =
        ([errObj ("HDU index " ++ toString (5 : Int) ++ " is out of bounds.")], 1) ∧
      main_run envImage Cmd.data "f.fits" (some 0) 0 0 =
        ([errObj ("HDU " ++ toString (0 : Int) ++ " ('" ++ hduImage.name ++
          "') is not a table HDU.")], 1) ∧
      main_run envProbe Cmd.data "f.fits" (some 0) 0 0 =
        ([errObj "probe boom"], 1) ∧
      (main_run envMid Cmd.data "f.fits" (some 0) 0 0).2 = 1 ∧
      (main_run envMid Cmd.data "f.fits" (some 0) 0 0).1.countP isErr = 1 :=
  ⟨(C2_error_channel envSmall Cmd.info "f.fits" none 0 0).1,
   ((C2_error_channel envDecodeBad Cmd.info "f.fits" none 0 0).2.2.1
     ⟨false, "bad header"⟩ rfl rfl rfl).1,
   (C2_error_channel (FitsEnv.mk false (Except.error ⟨true, "gone"⟩)) Cmd.data
     "f.fits" (some 0) 0 0).2.2.2.1 rfl,
   (C2_error_channel envSmall Cmd.data "f.fits" none 0 0).2.2.2.2.1 rfl rfl rfl,
   (C2_error_channel envDecodeBad Cmd.data "f.fits" (some 0) 0 0).2.2.2.2.2.1
     ⟨false, "bad header"⟩ 0 rfl rfl rfl rfl,
   (C2_error_channel envSmall Cmd.data "f.fits" (some 5) 0 0).2.2.2.2.2.2.1
     [hduSmall] 5 rfl rfl rfl rfl (by decide),
   (C2_error_channel envImage Cmd.data "f.fits" (some 0) 0 0).2.2.2.2.2.2.2.1
     [hduImage] 0 (by decide) rfl rfl rfl rfl (by decide) rfl,
   (C2_error_channel envProbe Cmd.data "f.fits" (some 0) 0 0).2.2.2.2.2.2.2.2.1
     [hduProbe] 0 (by decide) "probe boom" rfl rfl rfl rfl (by decide) rfl
     (by decide) (by decide),
   (C2_error_channel envMid Cmd.data "f.fits" (some 0) 0 0).2.2.2.2.2.2.2.2.2
     [hduMid] 0 (by decide) [0] [] 500 "boom" rfl rfl rfl rfl (by decide) rfl
     (by decide) (by decide) (by decide) (by decide) (by decide)⟩

/-- C3: FALSIFIED as stated. For a successful export with zero effective rows,
the single emitted message omits the `warning` key (the source prints a
three-key object on the early-return path), so the first message does not
contain all four keys. -/
theorem C3_counterexample :
    (stream_table_data envZero 0 0 0).1 = [zeroRowsMsg] ∧
      (stream_table_data envZero 0 0 0).2 = 0 ∧
      hasKey zeroRowsMsg "warning" = false := ⟨rfl, rfl, rfl⟩

/-- C3 (amended): for every successful export with a positive effective row
count, the first emitted message is exactly one Schema Message containing the
four keys schema, data (equal to the empty list), warning (a string or null)
and total_rows (the Row Limiter's effectiveRows); when the effective row count
is zero the single emitted message carries only the three keys schema, data
(empty) and total_rows, omitting warning. -/
theorem C3_schema_message_first (env : FitsEnv) (hdul : List Hdu) (idx mr mc : Int)
    (cs : Nat) (hop : env.openResult = Except.ok hdul)
    (hlt : idx.toNat < hdul.length) (h0 : 0 ≤ idx) (h1 : idx < (hdul.length : Int))
    (ht : (hdul.get ⟨idx.toNat, hlt⟩).isTable = true) :
    (rowsToProcess (hdul.get ⟨idx.toNat, hlt⟩).nrows mr ≠ 0 →
      (hdul.get ⟨idx.toNat, hlt⟩).readErr 0 1 = none →
      (stream_table_data env idx mr mc cs).1.head? =
          some (schemaMsg
            (schemaFields (fix_multi_dim_tables
              (selectCols (sliceRows (hdul.get ⟨idx.toNat, hlt⟩).cols 0 1)
                (columnNamesOf (hdul.get ⟨idx.toNat, hlt⟩).cols mc))))
            (warningMessage (hdul.get ⟨idx.toNat, hlt⟩).nrows
              (colnames (hdul.get ⟨idx.toNat, hlt⟩).cols).length mr mc)
            (rowsToProcess (hdul.get ⟨idx.toNat, hlt⟩).nrows mr)) ∧
        (∀ f w total, keysOf (schemaMsg f w total) =
          ["schema", "data", "warning", "total_rows"])) ∧
    (rowsToProcess (hdul.get ⟨idx.toNat, hlt⟩).nrows mr = 0 →
      (stream_table_data env idx mr mc cs).1 = [zeroRowsMsg] ∧
        keysOf zeroRowsMsg = ["schema", "data", "total_rows"]) := by
  rw [stream_eq_streamHdu hop h0 h1 mr mc cs hlt]
  unfold streamHdu
  rw [if_pos ht]
  constructor
  · intro hz hp
    rw [streamRows_pos mc cs hz hp]
    exact ⟨rfl, fun f w total => rfl⟩
  · intro hz
    rw [streamRows_zero mc cs hz]
    exact ⟨rfl, rfl⟩

/-- Witness for C3 at concrete inputs: the 7-row sample unit (positive row
count) and the zero-row sample unit. -/
theorem C3_schema_message_first_witness :
    ((stream_table_data envSmall 0 0 0 3).1.head? =
        some (schemaMsg
          (schemaFields (fix_multi_dim_tables
            (selectCols (sliceRows hduSmall.cols 0 1)
              (columnNamesOf hduSmall.cols 0))))
          (warningMessage hduSmall.nrows (colnames hduSmall.cols).length 0 0)
          (rowsToProcess hduSmall.nrows 0))) ∧
      ((stream_table_data envZero 0 0 0 500).1 = [zeroRowsMsg] ∧
        keysOf zeroRowsMsg = ["schema", "data", "total_rows"]) :=
  ⟨((C3_schema_message_first envSmall [hduSmall] 0 0 0 3 rfl (by decide)
      (by decide) (by decide) rfl).1 (by decide) rfl).1,
   (C3_schema_message_first envZero [hduEmptyRows] 0 0 0 500 rfl (by decide)
      (by decide) (by decide) rfl).2 rfl⟩

/-- C7: CONFIRMED. For a tabular unit whose effective row count is zero,
exactly one message is emitted — the zero-row Schema Message, whose `data`
member is the empty list — and the process exits 0. -/
theorem C7_zero_rows (env : FitsEnv) (hdul : List Hdu) (path : String)
    (idx mr mc : Int) (hpe : env.pathExists = true)
    (hop : env.openResult = Except.ok hdul)
    (hlt : idx.toNat < hdul.length) (h0 : 0 ≤ idx) (h1 : idx < (hdul.length : Int))
    (ht : (hdul.get ⟨idx.toNat, hlt⟩).isTable = true)
    (hz : rowsToProcess (hdul.get ⟨idx.toNat, hlt⟩).nrows mr = 0) :
    main_run env Cmd.data path (some idx) mr mc = ([zeroRowsMsg], 0) ∧
      hasKey zeroRowsMsg "data" = true := by
  constructor
  · unfold main_run
    rw [if_pos hpe]
    show stream_table_data env idx mr mc = _
    rw [stream_eq_streamHdu hop h0 h1 mr mc 500 hlt]
    unfold streamHdu
    rw [if_pos ht]
    exact streamRows_zero mc 500 hz
  · rfl

/-- Witness for C7 at the concrete zero-row unit. -/
theorem C7_zero_rows_witness :
    main_run envZero Cmd.data "f.fits" (some 0) 0 0 = ([zeroRowsMsg], 0) :=
  (C7_zero_rows envZero [hduEmptyRows] "f.fits" 0 0 0 rfl rfl (by decide)
    (by decide) (by decide) rfl rfl).1

/-- C8: CONFIRMED. Requesting a unit index outside the enumerated range, or an
in-range index whose unit lacks tabular capability, each yields exactly one
`{error: string}` message and exit code 1, with no Schema or Data Message
emitted. -/
theorem C8_bad_unit (env : FitsEnv) (hdul : List Hdu) (path : String)
    (idx mr mc : Int) (hpe : env.pathExists = true)
    (hop : env.openResult = Except.ok hdul) :
    (¬(0 ≤ idx ∧ idx < (hdul.length : Int)) →
      main_run env Cmd.data path (some idx) mr mc =
        ([errObj ("HDU index " ++ toString idx ++ " is out of bounds.")], 1)) ∧
    (∀ hlt : idx.toNat < hdul.length, 0 ≤ idx →
      (hdul.get ⟨idx.toNat, hlt⟩).isTable = false →
      main_run env Cmd.data path (some idx) mr mc =
        ([errObj ("HDU " ++ toString idx ++ " ('" ++
          (hdul.get ⟨idx.toNat, hlt⟩).name ++ "') is not a table HDU.")], 1)) := by
  constructor
  · intro hb
    unfold main_run
    rw [if_pos hpe]
    show stream_table_data env idx mr mc = _
    exact stream_out_of_bounds hop hb mr mc 500
  · intro hlt h0 htf
    unfold main_run
    rw [if_pos hpe]
    show stream_table_data env idx mr mc = _
    have h1 : idx < (hdul.length : Int) := by omega
    rw [stream_eq_streamHdu hop h0 h1 mr mc 500 hlt]
    unfold streamHdu
    rw [if_neg (by rw [htf]; exact Bool.false_ne_true)]

/-- Witness for C8 at concrete inputs: index 5 of a one-unit container, and
the non-tabular image unit at index 0. -/
theorem C8_bad_unit_witness :
    main_run envSmall Cmd.data "f.fits" (some 5) 0 0 =
        ([errObj ("HDU index " ++ toString (5 : Int) ++ " is out of bounds.")], 1) ∧
      main_run envImage Cmd.data "f.fits" (some 0) 0 0 =
        ([errObj ("HDU " ++ toString (0 : Int) ++ " ('" ++ hduImage.name ++
          "') is not a table HDU.")], 1) :=
  ⟨(C8_bad_unit envSmall [hduSmall] "f.fits" 5 0 0 rfl rfl).1 (by decide),
   (C8_bad_unit envImage [hduImage] "f.fits" 0 0 0 rfl rfl).2 (by decide)
     (by decide) rfl⟩

theorem rowsToProcess_eq_spec (total : Nat) (mr : Int) :
    rowsToProcess total mr = effectiveRows_spec total mr := by
  unfold rowsToProcess effectiveRows_spec
  split_ifs <;> omega

theorem columnNamesOf_eq_spec (t : Table Jval) (mc : Int) :
    columnNamesOf t mc = effectiveCols_spec (colnames t) mc := by
  unfold columnNamesOf effectiveCols_spec
  split_ifs with h1 h2 h2
  · omega
  · have he : mc.toNat = min mc.toNat (colnames t).length := by omega
    rw [← he]
  · rfl
  · have he : min mc.toNat (colnames t).length = (colnames t).length := by omega
    rw [he, List.take_length]

/-- C5: CONFIRMED. The effective row count equals the native row count when
maxRows <= 0 and min(maxRows, totalRows) otherwise; the exported column list
obeys the same rule on the native pre-flattening column list, always taking
the first N names in native order; and the Schema Message reports exactly that
effective row count as total_rows. -/
theorem C5_row_limiter :
    (∀ (total : Nat) (mr : Int), rowsToProcess total mr = effectiveRows_spec total mr) ∧
    (∀ (t : Table Jval) (mc : Int),
      columnNamesOf t mc = effectiveCols_spec (colnames t) mc) ∧
    (∀ (env : FitsEnv) (hdul : List Hdu) (idx mr mc : Int) (cs : Nat)
      (hop : env.openResult = Except.ok hdul)
      (hlt : idx.toNat < hdul.length), 0 ≤ idx → idx < (hdul.length : Int) →
      (hdul.get ⟨idx.toNat, hlt⟩).isTable = true →
      rowsToProcess (hdul.get ⟨idx.toNat, hlt⟩).nrows mr ≠ 0 →
      (hdul.get ⟨idx.toNat, hlt⟩).readErr 0 1 = none →
      (stream_table_data env idx mr mc cs).1.head? =
        some (schemaMsg
          (schemaFields (fix_multi_dim_tables
            (selectCols (sliceRows (hdul.get ⟨idx.toNat, hlt⟩).cols 0 1)
              (effectiveCols_spec (colnames (hdul.get ⟨idx.toNat, hlt⟩).cols) mc))))
          (warningMessage (hdul.get ⟨idx.toNat, hlt⟩).nrows
            (colnames (hdul.get ⟨idx.toNat, hlt⟩).cols).length mr mc)
          (effectiveRows_spec (hdul.get ⟨idx.toNat, hlt⟩).nrows mr))) := by
  refine ⟨rowsToProcess_eq_spec, columnNamesOf_eq_spec, ?_⟩
  intro env hdul idx mr mc cs hop hlt h0 h1 ht hz hp
  rw [stream_eq_streamHdu hop h0 h1 mr mc cs hlt]
  unfold streamHdu
  rw [if_pos ht]
  rw [streamRows_pos mc cs hz hp]
  rw [← rowsToProcess_eq_spec, ← columnNamesOf_eq_spec]
  rfl

/-- Witness for C5: the limiter equalities at concrete inputs, and the schema
head of a concrete truncated export. -/
theorem C5_row_limiter_witness :
    rowsToProcess 7 4 = effectiveRows_spec 7 4 ∧
      columnNamesOf sampleCols 1 = effectiveCols_spec (colnames sampleCols) 1 ∧
      (stream_table_data envSmall 0 4 1 3).1.head? =
        some (schemaMsg
          (schemaFields (fix_multi_dim_tables
            (selectCols (sliceRows hduSmall.cols 0 1)
              (effectiveCols_spec (colnames hduSmall.cols) 1))))
          (warningMessage hduSmall.nrows (colnames hduSmall.cols).length 4 1)
          (effectiveRows_spec hduSmall.nrows 4)) :=
  ⟨C5_row_limiter.1 7 4, C5_row_limiter.2.1 sampleCols 1,
   C5_row_limiter.2.2 envSmall [hduSmall] 0 4 1 3 rfl (by decide) (by decide)
     (by decide) rfl (by decide) rfl⟩

theorem streamChunks_no_warning {hdu : Hdu} {cnames : List String} {n cs : Nat} :
    ∀ (l : List Nat) (s : Nat),
      ((streamChunks hdu cnames n cs l s).1.all
        (fun m => !(hasKey m "warning"))) = true := by
  intro l
  induction l with
  | nil => intro s; rfl
  | cons i rest ih =>
    intro s
    unfold streamChunks
    rcases hr : hdu.readErr i (min (i + cs) n) with _ | emsg
    · simp only [hr]
      rw [List.all_cons]
      rw [hasKey_dataMsgJ_warning]
      rw [ih]
      rfl
    · simp only [hr]
      rw [List.all_cons, hasKey_errObj_warning]
      rfl

/-- C6: CONFIRMED. The warning is non-null exactly when a cap reduced the row
or column count; when maxRows > 0 and totalRows > maxRows it is present and
mentions the original total; when both caps apply the two notices are combined
into one string; and no message produced by the chunk loop (data or error)
ever carries a warning key, so the warning appears only in the Schema
Message. -/
theorem C6_warning_text :
    (∀ (tr tc : Nat) (mr mc : Int),
      warningMessage tr tc mr mc = none ↔
        ¬(mr > 0 ∧ (tr : Int) > mr) ∧ ¬(mc > 0 ∧ (tc : Int) > mc)) ∧
    (∀ (tr tc : Nat) (mr mc : Int), mr > 0 → (tr : Int) > mr →
      ∃ pre post, warningMessage tr tc mr mc =
        some (pre ++ toString tr ++ post)) ∧
    (∀ (tr tc : Nat) (mr mc : Int), mr > 0 → (tr : Int) > mr → mc > 0 →
      (tc : Int) > mc →
      warningMessage tr tc mr mc = some (rowWarn mr tr ++ " " ++ colWarn mc tc)) ∧
    (∀ (hdu : Hdu) (cnames : List String) (n cs : Nat) (l : List Nat) (s : Nat),
      ((streamChunks hdu cnames n cs l s).1.all
        (fun m => !(hasKey m "warning"))) = true) := by
  refine ⟨?_, ?_, ?_, fun hdu cnames n cs l s => streamChunks_no_warning l s⟩
  · intro tr tc mr mc
    unfold warningMessage
    by_cases h1 : mr > 0 ∧ (tr : Int) > mr <;>
      by_cases h2 : mc > 0 ∧ (tc : Int) > mc <;>
      simp [h1, h2]
  · intro tr tc mr mc hmr htr
    have h1 : mr > 0 ∧ (tr : Int) > mr := ⟨hmr, htr⟩
    unfold warningMessage
    by_cases h2 : mc > 0 ∧ (tc : Int) > mc
    · refine ⟨"Warning: Displaying first " ++ toString mr ++ " of ",
        " rows." ++ (" " ++ colWarn mc tc), ?_⟩
      rw [if_pos h1, if_pos h2]
      simp only [rowWarn]
      rw [String.append_assoc, String.append_assoc]
    · refine ⟨"Warning: Displaying first " ++ toString mr ++ " of ",
        " rows.", ?_⟩
      rw [if_pos h1, if_neg h2]
      rfl
  · intro tr tc mr mc hmr htr hmc htc
    unfold warningMessage
    rw [if_pos (⟨hmr, htr⟩ : mr > 0 ∧ (tr : Int) > mr),
      if_pos (⟨hmc, htc⟩ : mc > 0 ∧ (tc : Int) > mc)]

/-- Witness for C6 at concrete inputs: no caps yield no warning, a row cap of
4 on 7 rows yields a warning mentioning 7, both caps combine, and the chunk
messages of a concrete run carry no warning key. -/
theorem C6_warning_text_witness :
    (warningMessage 7 2 0 0 = none ↔
        ¬((0 : Int) > 0 ∧ (7 : Int) > 0) ∧ ¬((0 : Int) > 0 ∧ (2 : Int) > 0)) ∧
      (∃ pre post, warningMessage 7 2 4 0 = some (pre ++ toString 7 ++ post)) ∧
      warningMessage 7 2 4 1 = some (rowWarn 4 7 ++ " " ++ colWarn 1 2) ∧
      ((streamChunks hduSmall ["X"] 7 3 [0, 3, 6] 0).1.all
        (fun m => !(hasKey m "warning"))) = true :=
  ⟨C6_warning_text.1 7 2 0 0,
   C6_warning_text.2.1 7 2 4 0 (by decide) (by decide),
   C6_warning_text.2.2.1 7 2 4 1 (by decide) (by decide) (by decide) (by decide),
   C6_warning_text.2.2.2 hduSmall ["X"] 7 3 [0, 3, 6] 0⟩

/-- C9: CONFIRMED. If the window with start offset `i` fails to decode after
the windows in `l1` succeeded, the export's output is exactly the already
emitted Schema Message and data messages of the successful windows, unchanged,
followed by one final `{error: string}` message, and the exit code is 1; the
error object is the only error message in the stream. -/
theorem C9_midstream_failure (env : FitsEnv) (hdul : List Hdu) (idx mr mc : Int)
    (cs : Nat) (l1 l2 : List Nat) (i : Nat) (emsg : String)
    (hop : env.openResult = Except.ok hdul)
    (hlt : idx.toNat < hdul.length) (h0 : 0 ≤ idx) (h1 : idx < (hdul.length : Int))
    (ht : (hdul.get ⟨idx.toNat, hlt⟩).isTable = true)
    (hz : rowsToProcess (hdul.get ⟨idx.toNat, hlt⟩).nrows mr ≠ 0)
    (hp : (hdul.get ⟨idx.toNat, hlt⟩).readErr 0 1 = none)
    (hw : windowStarts (rowsToProcess (hdul.get ⟨idx.toNat, hlt⟩).nrows mr) cs =
      l1 ++ i :: l2)
    (hok : ∀ a ∈ l1, (hdul.get ⟨idx.toNat, hlt⟩).readErr a
      (min (a + cs) (rowsToProcess (hdul.get ⟨idx.toNat, hlt⟩).nrows mr)) = none)
    (hf : (hdul.get ⟨idx.toNat, hlt⟩).readErr i
      (min (i + cs) (rowsToProcess (hdul.get ⟨idx.toNat, hlt⟩).nrows mr)) =
      some emsg) :
    stream_table_data env idx mr mc cs =
      (schemaMsg
          (schemaFields (fix_multi_dim_tables
            (selectCols (sliceRows (hdul.get ⟨idx.toNat, hlt⟩).cols 0 1)
              (columnNamesOf (hdul.get ⟨idx.toNat, hlt⟩).cols mc))))
          (warningMessage (hdul.get ⟨idx.toNat, hlt⟩).nrows
            (colnames (hdul.get ⟨idx.toNat, hlt⟩).cols).length mr mc)
          (rowsToProcess (hdul.get ⟨idx.toNat, hlt⟩).nrows mr) ::
        (okChunkMsgs (hdul.get ⟨idx.toNat, hlt⟩)
          (columnNamesOf (hdul.get ⟨idx.toNat, hlt⟩).cols mc)
          (rowsToProcess (hdul.get ⟨idx.toNat, hlt⟩).nrows mr) cs l1 0 ++
          [errObj emsg]), 1) ∧
      (∀ m ∈ okChunkMsgs (hdul.get ⟨idx.toNat, hlt⟩)
          (columnNamesOf (hdul.get ⟨idx.toNat, hlt⟩).cols mc)
          (rowsToProcess (hdul.get ⟨idx.toNat, hlt⟩).nrows mr) cs l1 0,
        isErr m = false) ∧
      (stream_table_data env idx mr mc cs).1.countP isErr = 1 := by
  have hs : stream_table_data env idx mr mc cs =
      (schemaMsg
          (schemaFields (fix_multi_dim_tables
            (selectCols (sliceRows (hdul.get ⟨idx.toNat, hlt⟩).cols 0 1)
              (columnNamesOf (hdul.get ⟨idx.toNat, hlt⟩).cols mc))))
          (warningMessage (hdul.get ⟨idx.toNat, hlt⟩).nrows
            (colnames (hdul.get ⟨idx.toNat, hlt⟩).cols).length mr mc)
          (rowsToProcess (hdul.get ⟨idx.toNat, hlt⟩).nrows mr) ::
        (okChunkMsgs (hdul.get ⟨idx.toNat, hlt⟩)
          (columnNamesOf (hdul.get ⟨idx.toNat, hlt⟩).cols mc)
          (rowsToProcess (hdul.get ⟨idx.toNat, hlt⟩).nrows mr) cs l1 0 ++
          [errObj emsg]), 1) := by
    rw [stream_eq_streamHdu hop h0 h1 mr mc cs hlt]
    unfold streamHdu
    rw [if_pos ht]
    rw [streamRows_pos mc cs hz hp]
    rw [hw]
    rw [streamChunks_fail hf l1 0 hok]
  have hdm : ∀ m ∈ okChunkMsgs (hdul.get ⟨idx.toNat, hlt⟩)
      (columnNamesOf (hdul.get ⟨idx.toNat, hlt⟩).cols mc)
      (rowsToProcess (hdul.get ⟨idx.toNat, hlt⟩).nrows mr) cs l1 0,
      isErr m = false := by
    intro m hm
    rcases okChunkMsgs_all_data l1 0 m hm with ⟨records, p, rfl⟩
    exact isErr_dataMsgJ records p
  refine ⟨hs, hdm, ?_⟩
  rw [hs]
  rw [List.countP_cons, List.countP_append, isErr_schemaMsg]
  have hc0 : (okChunkMsgs (hdul.get ⟨idx.toNat, hlt⟩)
      (columnNamesOf (hdul.get ⟨idx.toNat, hlt⟩).cols mc)
      (rowsToProcess (hdul.get ⟨idx.toNat, hlt⟩).nrows mr) cs l1 0).countP isErr
      = 0 := by
    rw [List.countP_eq_zero]
    intro m hm
    rw [hdm m hm]
    exact Bool.false_ne_true
  rw [hc0]
  rfl

/-- Witness for C9: the 7-row sample unit whose second window (start offset 3,
chunk size 3) raises. -/
theorem C9_midstream_failure_witness :
    stream_table_data envFail 0 0 0 3 =
      (schemaMsg
          (schemaFields (fix_multi_dim_tables
            (selectCols (sliceRows hduFail.cols 0 1)
              (columnNamesOf hduFail.cols 0))))
          (warningMessage hduFail.nrows (colnames hduFail.cols).length 0 0)
          (rowsToProcess hduFail.nrows 0) ::
        (okChunkMsgs hduFail (columnNamesOf hduFail.cols 0)
          (rowsToProcess hduFail.nrows 0) 3 [0] 0 ++ [errObj "boom"]), 1) :=
  (C9_midstream_failure envFail [hduFail] 0 0 0 3 [0] [6] 3 "boom" rfl
    (by decide) (by decide) (by decide) rfl (by decide) rfl (by decide)
    (by decide) rfl).1

theorem ceil_le {n cs : Nat} (h : 0 < cs) : n ≤ ((n + cs - 1) / cs) * cs := by
  have h1 := Nat.lt_div_mul_add (a := n + cs - 1) h
  generalize (n + cs - 1) / cs * cs = K at h1 ⊢
  omega

theorem ceil_start_lt {n cs j : Nat} (h : 0 < cs) (hj : j < (n + cs - 1) / cs) :
    j * cs < n := by
  have h5 : 0 < n := by
    rcases Nat.eq_zero_or_pos n with h0 | h0
    · subst h0
      rw [Nat.zero_add, Nat.div_eq_of_lt (by omega)] at hj
      omega
    · exact h0
  have h1 : (n + cs - 1) / cs * cs ≤ n + cs - 1 := Nat.div_mul_le_self _ _
  have h3 : (j + 1) * cs ≤ (n + cs - 1) / cs * cs := Nat.mul_le_mul_right cs hj
  have h4 : (j + 1) * cs = j * cs + cs := by ring
  have h6 : j * cs + cs ≤ n + cs - 1 := by
    rw [← h4]
    exact Nat.le_trans h3 h1
  generalize j * cs = B at h6 ⊢
  omega

theorem ceil_pos {n cs : Nat} (hc : 0 < cs) (hn : 0 < n) :
    0 < (n + cs - 1) / cs := by
  rcases Nat.eq_zero_or_pos ((n + cs - 1) / cs) with h0 | h0
  · have := ceil_le (n := n) hc
    rw [h0] at this
    omega
  · exact h0

theorem append_underscore_ne (n s : String) : n ++ "_" ++ s ≠ n := by
  intro h
  have hl := congrArg String.length h
  rw [String.length_append, String.length_append] at hl
  have : String.length "_" = 1 := rfl
  omega

theorem foldl_setCol_dataLen {α : Type} (g : Nat → String) (dd : Nat → ColData α)
    {m : Nat} (hd : ∀ i, dataLen (dd i) = m) :
    ∀ (l : List Nat) (t : Table α), (∀ c ∈ t, dataLen c.data = m) →
      ∀ c ∈ l.foldl (fun acc i => setCol acc (g i) (dd i)) t, dataLen c.data = m := by
  intro l
  induction l with
  | nil => intro t h c hc; exact h c hc
  | cons a rest ih =>
    intro t h c hc
    refine ih (setCol t (g a) (dd a)) ?_ c hc
    intro c0 hc0
    rcases mem_setCol hc0 with rfl | hm
    · exact hd a
    · exact h c0 hm

theorem foldl_setCol_name_preserved {α : Type} (g : Nat → String)
    (dd : Nat → ColData α) (nm : String) :
    ∀ (l : List Nat) (t : Table α), (∃ c ∈ t, c.name = nm) →
      ∃ c ∈ l.foldl (fun acc i => setCol acc (g i) (dd i)) t, c.name = nm := by
  intro l
  induction l with
  | nil => intro t h; exact h
  | cons a rest ih =>
    intro t h
    refine ih (setCol t (g a) (dd a)) ?_
    rcases h with ⟨c, hc, hn⟩
    unfold setCol
    by_cases ha : t.any (fun c => c.name = g a)
    · rw [if_pos ha]
      by_cases he : c.name = g a
      · refine ⟨⟨g a, dd a⟩, List.mem_map.mpr ⟨c, hc, by rw [if_pos he]⟩, ?_⟩
        rw [← he, hn]
      · exact ⟨c, List.mem_map.mpr ⟨c, hc, by rw [if_neg he]⟩, hn⟩
    · rw [if_neg ha]
      exact ⟨c, List.mem_append.mpr (Or.inl hc), hn⟩

theorem foldl_setCol_name_exists {α : Type} (g : Nat → String) (dd : Nat → ColData α) :
    ∀ (l : List Nat) (t : Table α) (a : Nat), a ∈ l →
      ∃ c ∈ l.foldl (fun acc i => setCol acc (g i) (dd i)) t, c.name = g a := by
  intro l
  induction l with
  | nil => intro t a ha; cases ha
  | cons b rest ih =>
    intro t a ha
    rcases List.mem_cons.mp ha with rfl | hm
    · refine foldl_setCol_name_preserved g dd (g a) rest (setCol t (g a) (dd a)) ?_
      unfold setCol
      by_cases hb : t.any (fun c => c.name = g a)
      · rw [if_pos hb]
        rcases List.any_eq_true.mp hb with ⟨c, hc, he⟩
        refine ⟨⟨g a, dd a⟩, List.mem_map.mpr ⟨c, hc, ?_⟩, rfl⟩
        rw [if_pos (by simpa using he)]
      · rw [if_neg hb]
        exact ⟨⟨g a, dd a⟩, List.mem_append.mpr (Or.inr (List.mem_singleton.mpr rfl)), rfl⟩
    · exact ih (setCol t (g b) (dd b)) a hm

theorem flattenOne_inv {α : Type} [Inhabited α] {m : Nat} {t : Table α}
    (h : TblInv m t) (n : String) : TblInv m (flattenOne t n) := by
  rcases h with ⟨hne, hlen, hw⟩
  unfold flattenOne
  rcases hg : getColData t n with _ | d
  · exact ⟨hne, hlen, hw⟩
  · rcases d with vs | ⟨w, vals⟩
    · exact ⟨hne, hlen, hw⟩
    · unfold getColData at hg
      rcases Option.map_eq_some'.mp hg with ⟨c0, hf, hcd⟩
      have hc0m : c0 ∈ t := List.mem_of_find?_eq_some hf
      have hvals : vals.length = m := by
        have := hlen c0 hc0m
        rw [hcd] at this
        exact this
      have hwpos : 0 < w := hw c0 hc0m w vals hcd
      have hlen1 : ∀ c ∈ (List.range w).foldl (fun acc i =>
          setCol acc (n ++ "_" ++ toString (i + 1))
            (ColData.scalar (vals.map (fun r => r.getD i default)))) t,
          dataLen c.data = m := by
        refine foldl_setCol_dataLen _ _ ?_ (List.range w) t hlen
        intro i
        simp [dataLen, hvals]
      have hvec1 : ∀ c ∈ (List.range w).foldl (fun acc i =>
          setCol acc (n ++ "_" ++ toString (i + 1))
            (ColData.scalar (vals.map (fun r => r.getD i default)))) t,
          ∀ w2 vs2, c.data = ColData.vector w2 vs2 → 0 < w2 := by
        intro c hc w2 vs2 hdd
        have hcv : isVec c.data = true := by rw [hdd]; rfl
        have hcm : c ∈ t :=
          foldl_setCol_vec_mem (fun i => n ++ "_" ++ toString (i + 1))
            (fun i => ColData.scalar (vals.map (fun r => r.getD i default)))
            (fun i => rfl) (List.range w) t c hc hcv
        exact hw c hcm w2 vs2 hdd
      refine ⟨?_, ?_, ?_⟩
      · rcases foldl_setCol_name_exists (fun i => n ++ "_" ++ toString (i + 1))
          (fun i => ColData.scalar (vals.map (fun r => r.getD i default)))
          (List.range w) t 0 (List.mem_range.mpr hwpos) with ⟨c, hc, hcn⟩
        have hsur : c ∈ delCol ((List.range w).foldl (fun acc i =>
            setCol acc (n ++ "_" ++ toString (i + 1))
              (ColData.scalar (vals.map (fun r => r.getD i default)))) t) n := by
          unfold delCol
          refine List.mem_filter.mpr ⟨hc, ?_⟩
          simp only [decide_eq_true_eq]
          rw [hcn]
          exact append_underscore_ne n (toString (0 + 1))
        exact List.ne_nil_of_mem hsur
      · intro c hc
        exact hlen1 c (mem_delCol hc).1
      · intro c hc
        exact hvec1 c (mem_delCol hc).1

theorem fix_inv {α : Type} [Inhabited α] {m : Nat} {t : Table α}
    (h : TblInv m t) : TblInv m (fix_multi_dim_tables t) := by
  unfold fix_multi_dim_tables
  generalize multiDimNames t = l
  induction l generalizing t with
  | nil => exact h
  | cons n rest ih => exact ih (flattenOne_inv h n)

theorem tableNRows_of_inv {α : Type} {m : Nat} {t : Table α}
    (h : TblInv m t) : tableNRows t = m := by
  rcases h with ⟨hne, hlen, _⟩
  cases t with
  | nil => exact absurd rfl hne
  | cons c rest => exact hlen c (List.mem_cons_self c rest)

theorem tableRecords_length (t : Table Jval) :
    (tableRecords t).length = tableNRows t := by
  unfold tableRecords
  rw [List.length_map, List.length_range]

theorem dataLen_sliceRowsCol (d : ColData Jval) (i e : Nat) :
    dataLen (sliceRowsCol d i e) = min (e - i) (dataLen d - i) := by
  cases d with
  | scalar vs => simp [sliceRowsCol, dataLen]
  | vector w vs => simp [sliceRowsCol, dataLen]

theorem mem_sliceRows {t : Table Jval} {i e : Nat} {c : Col Jval}
    (h : c ∈ sliceRows t i e) :
    ∃ c0 ∈ t, c = ⟨c0.name, sliceRowsCol c0.data i e⟩ := by
  unfold sliceRows at h
  rcases List.mem_map.mp h with ⟨c0, hc0, he⟩
  exact ⟨c0, hc0, he.symm⟩

theorem mem_selectCols {t : Table Jval} {ns : List String} {c : Col Jval}
    (h : c ∈ selectCols t ns) : ∃ c0 ∈ t, c.data = c0.data := by
  unfold selectCols at h
  rcases List.mem_filterMap.mp h with ⟨n, _, hn⟩
  rcases Option.map_eq_some'.mp hn with ⟨c0, hf, hc⟩
  exact ⟨c0, List.mem_of_find?_eq_some hf, by rw [← hc]⟩

theorem selectCols_ne_nil {t : Table Jval} {ns : List String}
    (hns : ns ≠ []) (hmem : ∀ n ∈ ns, n ∈ colnames t) : selectCols t ns ≠ [] := by
  cases ns with
  | nil => exact absurd rfl hns
  | cons n rest =>
    have hn : n ∈ colnames t := hmem n (List.mem_cons_self n rest)
    rcases List.mem_map.mp hn with ⟨c0, hc0, he⟩
    have hfind : (t.find? (fun c => c.name = n)).isSome := by
      rw [List.find?_isSome]
      exact ⟨c0, hc0, by simpa using he⟩
    rcases Option.isSome_iff_exists.mp hfind with ⟨c1, hc1⟩
    unfold selectCols
    rw [List.filterMap_cons]
    rw [hc1]
    simp

theorem columnNamesOf_ne_nil {t : Table Jval} (mc : Int) (h : t ≠ []) :
    columnNamesOf t mc ≠ [] := by
  have hcn : colnames t ≠ [] := by
    unfold colnames
    simpa using h
  unfold columnNamesOf
  split_ifs with h1
  · rw [Ne, List.take_eq_nil_iff]
    push_neg
    exact ⟨by omega, hcn⟩
  · exact hcn

theorem columnNamesOf_subset {t : Table Jval} {mc : Int} {n : String}
    (h : n ∈ columnNamesOf t mc) : n ∈ colnames t := by
  unfold columnNamesOf at h
  split_ifs at h
  · exact List.take_subset _ _ h
  · exact h

theorem chunk_inv {hdu : Hdu} (hwf : WfHdu hdu) (mc : Int) {i e : Nat}
    (hie : i < e) (hen : e ≤ hdu.nrows) :
    TblInv (e - i) (selectCols (sliceRows hdu.cols i e) (columnNamesOf hdu.cols mc)) := by
  rcases hwf with ⟨hne, _, hlen, hw⟩
  refine ⟨?_, ?_, ?_⟩
  · refine selectCols_ne_nil (columnNamesOf_ne_nil mc hne) ?_
    intro n hn
    have h2 := columnNamesOf_subset hn
    unfold sliceRows colnames
    unfold colnames at h2
    rw [List.map_map]
    exact h2
  · intro c hc
    rcases mem_selectCols hc with ⟨c1, hc1, hd1⟩
    rcases mem_sliceRows hc1 with ⟨c0, hc0, he0⟩
    rw [hd1, he0]
    rw [dataLen_sliceRowsCol]
    have := hlen c0 hc0
    omega
  · intro c hc w vs hdd
    rcases mem_selectCols hc with ⟨c1, hc1, hd1⟩
    rcases mem_sliceRows hc1 with ⟨c0, hc0, he0⟩
    rw [hd1, he0] at hdd
    rcases hd0 : c0.data with vs0 | ⟨w0, vs0⟩
    · rw [hd0] at hdd
      cases hdd
    · rw [hd0] at hdd
      unfold sliceRowsCol at hdd
      have hww : w0 = w := by cases hdd; rfl
      exact hww ▸ hw c0 hc0 w0 vs0 hd0

theorem records_len {hdu : Hdu} (hwf : WfHdu hdu) (mc : Int) {i e : Nat}
    (hie : i < e) (hen : e ≤ hdu.nrows) :
    (tableRecords (fix_multi_dim_tables
      (selectCols (sliceRows hdu.cols i e) (columnNamesOf hdu.cols mc)))).length =
      e - i := by
  rw [tableRecords_length]
  exact tableNRows_of_inv (fix_inv (chunk_inv hwf mc hie hen))

theorem progressVals_cons_data (records : List Jval) (p : Nat) (rest : List Jval) :
    progressVals (dataMsgJ records p :: rest) = (p : Int) :: progressVals rest := rfl

theorem streamChunks_progress_aux (hdu : Hdu) (cn : List String) (n cs : Nat)
    (hok : ∀ i e, hdu.readErr i e = none)
    (hrec : ∀ i, i < n →
      (tableRecords (fix_multi_dim_tables
        (selectCols (sliceRows hdu.cols i (min (i + cs) n)) cn))).length =
        min (i + cs) n - i) :
    ∀ (k j : Nat), (∀ a, a < k → (j + a) * cs < n) →
      progressVals (streamChunks hdu cn n cs
          ((List.range' j k).map (fun a => a * cs)) (j * cs)).1 =
        (List.range' j k).map (fun a => ((min ((a + 1) * cs) n : Nat) : Int)) ∧
      (streamChunks hdu cn n cs ((List.range' j k).map (fun a => a * cs))
        (j * cs)).2 = 0 := by
  intro k
  induction k with
  | zero => intro j _; exact ⟨rfl, rfl⟩
  | succ k ih =>
    intro j hstart
    have hjn : j * cs < n := by
      have := hstart 0 (Nat.succ_pos k)
      simpa using this
    have hL := hrec (j * cs) hjn
    have harith : ∀ A : Nat, A < n → A + (min (A + cs) n - A) = min (A + cs) n := by
      intro A hA
      omega
    have hsent : j * cs + (tableRecords (fix_multi_dim_tables
        (selectCols (sliceRows hdu.cols (j * cs) (min (j * cs + cs) n)) cn))).length =
        min ((j + 1) * cs) n := by
      rw [hL, harith (j * cs) hjn]
      congr 1
      ring
    rw [List.range'_succ]
    rw [List.map_cons]
    unfold streamChunks
    simp only [hok (j * cs) (min (j * cs + cs) n)]
    cases k with
    | zero =>
      constructor
      · rw [progressVals_cons_data]
        rw [hsent]
        rfl
      · rfl
    | succ k2 =>
      have hstart2 : ∀ a, a < k2 + 1 → (j + 1 + a) * cs < n := by
        intro a ha
        have := hstart (a + 1) (by omega)
        have he : j + (a + 1) = j + 1 + a := by omega
        rw [he] at this
        exact this
      have hsent2 : min ((j + 1) * cs) n = (j + 1) * cs := by
        have h2 : (j + 1) * cs < n := by
          have := hstart 1 (by omega)
          simpa using this
        omega
      have ihres := ih (j + 1) hstart2
      constructor
      · rw [progressVals_cons_data]
        rw [hsent]
        rw [List.map_cons]
        congr 1
        rw [hsent2]
        exact ihres.1
      · rw [hsent, hsent2]
        exact ihres.2

theorem rowsToProcess_le (total : Nat) (mr : Int) : rowsToProcess total mr ≤ total := by
  unfold rowsToProcess
  split_ifs <;> omega

theorem chain_min_map (s k cs n : Nat) :
    List.Chain' (fun a b => a ≤ b)
      ((List.range' s k).map (fun a => ((min ((a + 1) * cs) n : Nat) : Int))) := by
  refine List.Pairwise.chain' ?_
  refine List.Pairwise.map _ ?_ (List.pairwise_lt_range' s k)
  intro a b hab
  have h1 : (a + 1) * cs ≤ (b + 1) * cs := Nat.mul_le_mul_right cs (by omega)
  exact Int.ofNat_le.mpr (min_le_min h1 (le_refl n))

theorem progressVals_cons_schema (f : Jval) (w : Option String) (total : Nat)
    (rest : List Jval) :
    progressVals (schemaMsg f w total :: rest) = progressVals rest := rfl

theorem wf_hduSmall : WfHdu hduSmall := by
  refine ⟨List.cons_ne_nil _ _, by decide, by decide, ?_⟩
  intro c hc w vs hd
  rcases List.mem_cons.mp hc with rfl | hc2
  · cases hd
  · rcases List.mem_singleton.mp hc2 with rfl
    cases hd
    omega

theorem wf_hduBig : WfHdu hduBig := by
  refine ⟨List.cons_ne_nil _ _, by decide, ?_, ?_⟩
  · intro c hc
    rcases List.mem_singleton.mp hc with rfl
    show (List.replicate 1200 (Jval.num 0)).length = 1200
    rw [List.length_replicate]
  · intro c hc w vs hd
    rcases List.mem_singleton.mp hc with rfl
    cases hd

/-- C4: CONFIRMED. Over the Data Messages of one successful export the
progress values are exactly min((j+1)*chunkSize, effectiveRows) for window
index j, hence monotonically non-decreasing, and the final one equals the
total_rows announced in the Schema Message; a 1200-row unit with chunkSize 500
and maxRows 0 emits progress values exactly 500, 1000, 1200. -/
theorem C4_progress_monotone :
    (∀ (env : FitsEnv) (hdul : List Hdu) (idx mr mc : Int) (cs : Nat),
      0 < cs → env.openResult = Except.ok hdul →
      ∀ (hlt : idx.toNat < hdul.length), 0 ≤ idx → idx < (hdul.length : Int) →
      (hdul.get ⟨idx.toNat, hlt⟩).isTable = true →
      WfHdu (hdul.get ⟨idx.toNat, hlt⟩) →
      (∀ i e, (hdul.get ⟨idx.toNat, hlt⟩).readErr i e = none) →
      rowsToProcess (hdul.get ⟨idx.toNat, hlt⟩).nrows mr ≠ 0 →
      progressVals (stream_table_data env idx mr mc cs).1 =
          (List.range' 0 ((rowsToProcess (hdul.get ⟨idx.toNat, hlt⟩).nrows mr + cs - 1) / cs)).map
            (fun a => ((min ((a + 1) * cs)
              (rowsToProcess (hdul.get ⟨idx.toNat, hlt⟩).nrows mr) : Nat) : Int)) ∧
        List.Chain' (fun a b => a ≤ b) (progressVals (stream_table_data env idx mr mc cs).1) ∧
        (progressVals (stream_table_data env idx mr mc cs).1).getLast? =
          some ((rowsToProcess (hdul.get ⟨idx.toNat, hlt⟩).nrows mr : Nat) : Int) ∧
        (stream_table_data env idx mr mc cs).1.head? =
          some (schemaMsg
            (schemaFields (fix_multi_dim_tables
              (selectCols (sliceRows (hdul.get ⟨idx.toNat, hlt⟩).cols 0 1)
                (columnNamesOf (hdul.get ⟨idx.toNat, hlt⟩).cols mc))))
            (warningMessage (hdul.get ⟨idx.toNat, hlt⟩).nrows
              (colnames (hdul.get ⟨idx.toNat, hlt⟩).cols).length mr mc)
            (rowsToProcess (hdul.get ⟨idx.toNat, hlt⟩).nrows mr)) ∧
        (stream_table_data env idx mr mc cs).2 = 0) ∧
    progressVals (stream_table_data envBig 0 0 0 500).1 =
      [(500 : Int), 1000, 1200] := by
  have hgen : ∀ (env : FitsEnv) (hdul : List Hdu) (idx mr mc : Int) (cs : Nat),
      0 < cs → env.openResult = Except.ok hdul →
      ∀ (hlt : idx.toNat < hdul.length), 0 ≤ idx → idx < (hdul.length : Int) →
      (hdul.get ⟨idx.toNat, hlt⟩).isTable = true →
      WfHdu (hdul.get ⟨idx.toNat, hlt⟩) →
      (∀ i e, (hdul.get ⟨idx.toNat, hlt⟩).readErr i e = none) →
      rowsToProcess (hdul.get ⟨idx.toNat, hlt⟩).nrows mr ≠ 0 →
      progressVals (stream_table_data env idx mr mc cs).1 =
          (List.range' 0 ((rowsToProcess (hdul.get ⟨idx.toNat, hlt⟩).nrows mr + cs - 1) / cs)).map
            (fun a => ((min ((a + 1) * cs)
              (rowsToProcess (hdul.get ⟨idx.toNat, hlt⟩).nrows mr) : Nat) : Int)) ∧
        List.Chain' (fun a b => a ≤ b) (progressVals (stream_table_data env idx mr mc cs).1) ∧
        (progressVals (stream_table_data env idx mr mc cs).1).getLast? =
          some ((rowsToProcess (hdul.get ⟨idx.toNat, hlt⟩).nrows mr : Nat) : Int) ∧
        (stream_table_data env idx mr mc cs).1.head? =
          some (schemaMsg
            (schemaFields (fix_multi_dim_tables
              (selectCols (sliceRows (hdul.get ⟨idx.toNat, hlt⟩).cols 0 1)
                (columnNamesOf (hdul.get ⟨idx.toNat, hlt⟩).cols mc))))
            (warningMessage (hdul.get ⟨idx.toNat, hlt⟩).nrows
              (colnames (hdul.get ⟨idx.toNat, hlt⟩).cols).length mr mc)
            (rowsToProcess (hdul.get ⟨idx.toNat, hlt⟩).nrows mr)) ∧
        (stream_table_data env idx mr mc cs).2 = 0 := by
    intro env hdul idx mr mc cs hcs hop hlt h0 h1 ht hwf hok hz
    rw [stream_eq_streamHdu hop h0 h1 mr mc cs hlt]
    unfold streamHdu
    rw [if_pos ht]
    rw [streamRows_pos mc cs hz (hok 0 1)]
    have hn : 0 < rowsToProcess (hdul.get ⟨idx.toNat, hlt⟩).nrows mr :=
      Nat.pos_of_ne_zero hz
    have hws : windowStarts (rowsToProcess (hdul.get ⟨idx.toNat, hlt⟩).nrows mr) cs =
        (List.range' 0 ((rowsToProcess (hdul.get ⟨idx.toNat, hlt⟩).nrows mr + cs - 1) / cs)).map
          (fun a => a * cs) := by
      unfold windowStarts
      rw [List.range_eq_range']
    have hrec : ∀ i, i < rowsToProcess (hdul.get ⟨idx.toNat, hlt⟩).nrows mr →
        (tableRecords (fix_multi_dim_tables
          (selectCols (sliceRows (hdul.get ⟨idx.toNat, hlt⟩).cols i
            (min (i + cs) (rowsToProcess (hdul.get ⟨idx.toNat, hlt⟩).nrows mr)))
            (columnNamesOf (hdul.get ⟨idx.toNat, hlt⟩).cols mc)))).length =
          min (i + cs) (rowsToProcess (hdul.get ⟨idx.toNat, hlt⟩).nrows mr) - i := by
      intro i hi
      have hle := rowsToProcess_le (hdul.get ⟨idx.toNat, hlt⟩).nrows mr
      exact records_len hwf mc (by omega) (by omega)
    have hstart : ∀ a, a < (rowsToProcess (hdul.get ⟨idx.toNat, hlt⟩).nrows mr + cs - 1) / cs →
        (0 + a) * cs < rowsToProcess (hdul.get ⟨idx.toNat, hlt⟩).nrows mr := by
      intro a ha
      rw [Nat.zero_add]
      exact ceil_start_lt hcs ha
    have haux := streamChunks_progress_aux (hdul.get ⟨idx.toNat, hlt⟩)
      (columnNamesOf (hdul.get ⟨idx.toNat, hlt⟩).cols mc)
      (rowsToProcess (hdul.get ⟨idx.toNat, hlt⟩).nrows mr) cs hok hrec
      ((rowsToProcess (hdul.get ⟨idx.toNat, hlt⟩).nrows mr + cs - 1) / cs) 0 hstart
    rw [Nat.zero_mul] at haux
    have hpv : progressVals (schemaMsg
        (schemaFields (fix_multi_dim_tables
          (selectCols (sliceRows (hdul.get ⟨idx.toNat, hlt⟩).cols 0 1)
            (columnNamesOf (hdul.get ⟨idx.toNat, hlt⟩).cols mc))))
        (warningMessage (hdul.get ⟨idx.toNat, hlt⟩).nrows
          (colnames (hdul.get ⟨idx.toNat, hlt⟩).cols).length mr mc)
        (rowsToProcess (hdul.get ⟨idx.toNat, hlt⟩).nrows mr) ::
        (streamChunks (hdul.get ⟨idx.toNat, hlt⟩)
          (columnNamesOf (hdul.get ⟨idx.toNat, hlt⟩).cols mc)
          (rowsToProcess (hdul.get ⟨idx.toNat, hlt⟩).nrows mr) cs
          (windowStarts (rowsToProcess (hdul.get ⟨idx.toNat, hlt⟩).nrows mr) cs) 0).1) =
        (List.range' 0 ((rowsToProcess (hdul.get ⟨idx.toNat, hlt⟩).nrows mr + cs - 1) / cs)).map
          (fun a => ((min ((a + 1) * cs)
            (rowsToProcess (hdul.get ⟨idx.toNat, hlt⟩).nrows mr) : Nat) : Int)) := by
      rw [progressVals_cons_schema]
      rw [hws]
      exact haux.1
    refine ⟨hpv, ?_, ?_, rfl, ?_⟩
    · rw [hpv]
      exact chain_min_map _ _ _ _
    · rw [hpv]
      rcases Nat.exists_eq_add_of_lt (ceil_pos hcs hn) with ⟨k2, hk2⟩
      rw [Nat.zero_add] at hk2
      rw [hk2]
      rw [List.range'_1_concat, List.map_append, List.map_singleton,
        List.getLast?_concat]
      have hle2 : rowsToProcess (hdul.get ⟨idx.toNat, hlt⟩).nrows mr ≤ (k2 + 1) * cs := by
        have h9 := ceil_le (n := rowsToProcess (hdul.get ⟨idx.toNat, hlt⟩).nrows mr) hcs
        rw [hk2] at h9
        exact h9
      rw [show (0 + k2 + 1) * cs = (k2 + 1) * cs by ring]
      rw [min_eq_right hle2]
    · rw [hws]
      exact haux.2
  refine ⟨hgen, ?_⟩
  have hex := (hgen envBig [hduBig] 0 0 0 500 (by omega) rfl (by decide) (by decide)
    (by decide) rfl wf_hduBig (fun i e => rfl) (by decide)).1
  rw [hex]
  decide

/-- Witness for C4 at the concrete 7-row sample unit with chunk size 3. -/
theorem C4_progress_monotone_witness :
    List.Chain' (fun a b => a ≤ b)
        (progressVals (stream_table_data envSmall 0 0 0 3).1) ∧
      (progressVals (stream_table_data envSmall 0 0 0 3).1).getLast? =
        some ((rowsToProcess hduSmall.nrows 0 : Nat) : Int) :=
  ⟨(C4_progress_monotone.1 envSmall [hduSmall] 0 0 0 3 (by omega) rfl (by decide)
      (by decide) (by decide) rfl wf_hduSmall (fun i e => rfl) (by decide)).2.1,
   (C4_progress_monotone.1 envSmall [hduSmall] 0 0 0 3 (by omega) rfl (by decide)
      (by decide) (by decide) rfl wf_hduSmall (fun i e => rfl) (by decide)).2.2.1⟩

theorem colnames_append {α : Type} (s r : Table α) :
    colnames (s ++ r) = colnames s ++ colnames r := by
  unfold colnames
  rw [List.map_append]

theorem setCol_append_of_not_mem {α : Type} {t : Table α} {n : String}
    (d : ColData α) (h : n ∉ colnames t) : setCol t n d = t ++ [⟨n, d⟩] := by
  unfold setCol
  rw [if_neg (fun hc => h (any_name_iff.mp hc))]

theorem foldl_setCol_append {α : Type} (g : Nat → String) (dd : Nat → ColData α) :
    ∀ (l : List Nat) (u : Table α),
      (∀ i ∈ l, g i ∉ colnames u) →
      List.Pairwise (fun i j => g i ≠ g j) l →
      l.foldl (fun acc i => setCol acc (g i) (dd i)) u =
        u ++ l.map (fun i => ⟨g i, dd i⟩) := by
  intro l
  induction l with
  | nil => intro u _ _; simp
  | cons a rest ih =>
    intro u hfresh hpw
    rw [List.foldl_cons]
    rw [setCol_append_of_not_mem (dd a) (hfresh a (List.mem_cons_self a rest))]
    have hfresh2 : ∀ i ∈ rest, g i ∉ colnames (u ++ [⟨g a, dd a⟩]) := by
      intro i hi
      rw [colnames_append]
      rw [List.mem_append]
      push_neg
      refine ⟨hfresh i (List.mem_cons_of_mem a hi), ?_⟩
      have hne := (List.pairwise_cons.mp hpw).1 i hi
      simp [colnames]
      exact fun he => hne he.symm
    have hres := ih (u ++ [⟨g a, dd a⟩]) hfresh2 (List.pairwise_cons.mp hpw).2
    rw [hres]
    simp

theorem eq_of_mem_of_name_eq {α : Type} {t : Table α} {c c2 : Col α}
    (hnd : (colnames t).Nodup) (hc : c ∈ t) (hc2 : c2 ∈ t)
    (hn : c.name = c2.name) : c = c2 := by
  have h1 := getColData_of_mem hnd hc
  have h2 := getColData_of_mem hnd hc2
  rw [hn] at h1
  rw [h1] at h2
  have hd : c.data = c2.data := Option.some_inj.mp h2
  cases c with
  | mk nm d =>
    cases c2 with
    | mk nm2 d2 =>
      simp only at hn hd
      rw [hn, hd]

theorem flattenOne_eq_append {α : Type} [Inhabited α] {u : Table α} {nm : String}
    {w : Nat} {vals : List (List α)}
    (hg : getColData u nm = some (ColData.vector w vals))
    (hfresh : ∀ i, i < w → (nm ++ "_" ++ toString (i + 1)) ∉ colnames u)
    (hinj : ∀ i, i < w → ∀ j, j < w →
      (nm ++ "_" ++ toString (i + 1)) = (nm ++ "_" ++ toString (j + 1)) → i = j) :
    flattenOne u nm = delCol u nm ++ (List.range w).map (fun i =>
      ⟨nm ++ "_" ++ toString (i + 1),
       ColData.scalar (vals.map (fun r => r.getD i default))⟩) := by
  unfold flattenOne
  simp only [hg]
  have hpw : List.Pairwise (fun i j =>
      (nm ++ "_" ++ toString (i + 1)) ≠ (nm ++ "_" ++ toString (j + 1)))
      (List.range w) := by
    refine List.Pairwise.imp_of_mem ?_ (List.pairwise_lt_range w)
    intro a b ha hb hlt heq
    exact absurd (hinj a (List.mem_range.mp ha) b (List.mem_range.mp hb) heq)
      (Nat.ne_of_lt hlt)
  rw [foldl_setCol_append (fun i => nm ++ "_" ++ toString (i + 1))
    (fun i => ColData.scalar (vals.map (fun r => r.getD i default)))
    (List.range w) u (fun i hi => hfresh i (List.mem_range.mp hi)) hpw]
  unfold delCol
  rw [List.filter_append]
  congr 1
  rw [List.filter_eq_self]
  intro x hx
  rcases List.mem_map.mp hx with ⟨i, _, rfl⟩
  simp only [decide_eq_true_eq]
  exact append_underscore_ne nm (toString (i + 1))

theorem multiDimNames_eq {α : Type} (t : Table α) (hnd : (colnames t).Nodup) :
    multiDimNames t = (t.filter (fun c => isVec c.data)).map (fun c => c.name) := by
  unfold multiDimNames colnames
  rw [List.filter_map]
  congr 1
  apply List.filter_congr
  intro c hc
  show (match getColData t c.name with
    | some d => decide (shapeLen d > 1)
    | none => false) = isVec c.data
  rw [getColData_of_mem hnd hc]
  rcases hd : c.data with vs | ⟨w, vs⟩
  · rfl
  · rfl

theorem colnames_delCol_subset {α : Type} {u : Table α} {n1 a : String}
    (h : a ∈ colnames (delCol u n1)) : a ∈ colnames u := by
  unfold colnames delCol at h
  unfold colnames
  rcases List.mem_map.mp h with ⟨c, hc, rfl⟩
  exact List.mem_map.mpr ⟨c, (List.mem_filter.mp hc).1, rfl⟩

theorem filter_delCol_comm {α : Type} (u : Table α) (p : Col α → Bool)
    (n1 : String) :
    (delCol u n1).filter p = (u.filter p).filter (fun c => c.name ≠ n1) := by
  unfold delCol
  rw [List.filter_filter, List.filter_filter]
  exact List.filter_congr (fun c _ => Bool.and_comm _ _)

theorem foldl_flattenOne_eq_flattenSpec {α : Type} [Inhabited α] :
    ∀ (l : List String) (u : Table α), (colnames u).Nodup → FreshNames u →
      DistinctGen u →
      (u.filter (fun c => isVec c.data)).map (fun c => c.name) = l →
      l.foldl flattenOne u = flattenSpec u := by
  intro l
  induction l with
  | nil =>
    intro u hnd hfr hdg hmap
    have hvnil : u.filter (fun c => isVec c.data) = [] := by
      cases hvv : u.filter (fun c => isVec c.data) with
      | nil => rfl
      | cons a r =>
        rw [hvv, List.map_cons] at hmap
        cases hmap
    rw [List.foldl_nil]
    unfold flattenSpec
    rw [hvnil]
    have hall : ∀ c ∈ u, (!(isVec c.data)) = true := by
      intro c hc
      cases hvv : isVec c.data with
      | false => rfl
      | true =>
        exfalso
        have hcm : c ∈ u.filter (fun c => isVec c.data) :=
          List.mem_filter.mpr ⟨hc, hvv⟩
        rw [hvnil] at hcm
        cases hcm
    rw [List.filter_eq_self.mpr hall]
    simp
  | cons n1 rest ih =>
    intro u hnd hfr hdg hmap
    rcases hv : u.filter (fun c => isVec c.data) with _ | ⟨vc1, vcs⟩
    · rw [hv] at hmap; cases hmap
    · rw [hv, List.map_cons] at hmap
      injection hmap with hn1 hrest
      have hvc1f : vc1 ∈ u.filter (fun c => isVec c.data) := by
        rw [hv]
        exact List.mem_cons_self vc1 vcs
      have hvc1mem : vc1 ∈ u := (List.mem_filter.mp hvc1f).1
      have hvc1vec : isVec vc1.data = true := (List.mem_filter.mp hvc1f).2
      obtain ⟨w, vals, hw⟩ : ∃ w vals, vc1.data = ColData.vector w vals := by
        rcases hd : vc1.data with vs | ⟨w, vals⟩
        · rw [hd] at hvc1vec; cases hvc1vec
        · exact ⟨w, vals, rfl⟩
      have hwid : widthOf vc1.data = w := by rw [hw]; rfl
      have hget : getColData u n1 = some (ColData.vector w vals) := by
        have hgc := getColData_of_mem hnd hvc1mem
        rw [hn1, hw] at hgc
        exact hgc
      have hfr1 : ∀ i, i < w → (n1 ++ "_" ++ toString (i + 1)) ∉ colnames u := by
        intro i hi
        have hx := hfr vc1 hvc1mem i (by rw [hwid]; exact hi)
        rw [hn1] at hx
        exact hx
      have hinj1 : ∀ i, i < w → ∀ j, j < w →
          (n1 ++ "_" ++ toString (i + 1)) = (n1 ++ "_" ++ toString (j + 1)) →
          i = j := by
        intro i hi j hj he
        refine (hdg vc1 hvc1mem vc1 hvc1mem i (by rw [hwid]; exact hi)
          j (by rw [hwid]; exact hj) ?_).2
        show genName vc1.name i = genName vc1.name j
        rw [hn1]
        exact he
      have hvcsne : ∀ c ∈ vcs, c.name ≠ n1 := by
        have hsub : (u.filter (fun c => isVec c.data)).Sublist u :=
          List.filter_sublist u
        have hnd2 : ((u.filter (fun c => isVec c.data)).map
            (fun c => c.name)).Nodup :=
          List.Nodup.sublist (List.Sublist.map _ hsub) hnd
        rw [hv, List.map_cons] at hnd2
        intro c hc he
        have hcn : c.name ∈ vcs.map (fun c => c.name) :=
          List.mem_map.mpr ⟨c, hc, rfl⟩
        rw [he, ← hn1] at hcn
        exact (List.nodup_cons.mp hnd2).1 hcn
      rw [List.foldl_cons]
      rw [flattenOne_eq_append hget hfr1 hinj1]
      have hGscalar : ∀ c ∈ (List.range w).map (fun i =>
          (⟨n1 ++ "_" ++ toString (i + 1),
            ColData.scalar (vals.map (fun r => r.getD i default))⟩ : Col α)),
          isVec c.data = false := by
        intro c hc
        rcases List.mem_map.mp hc with ⟨i, _, rfl⟩
        rfl
      have hu1nd : (colnames (delCol u n1 ++ (List.range w).map (fun i =>
          (⟨n1 ++ "_" ++ toString (i + 1),
            ColData.scalar (vals.map (fun r => r.getD i default))⟩ : Col α)))).Nodup := by
        rw [colnames_append]
        rw [List.nodup_append]
        refine ⟨nodup_colnames_delCol hnd, ?_, ?_⟩
        · show (colnames _).Nodup
          unfold colnames
          rw [List.map_map]
          refine List.Nodup.map_on ?_ (List.nodup_range w)
          intro i hi j hj he
          exact hinj1 i (List.mem_range.mp hi) j (List.mem_range.mp hj) he
        · intro a ha hb
          have hau : a ∈ colnames u := colnames_delCol_subset ha
          unfold colnames at hb
          rw [List.map_map] at hb
          rcases List.mem_map.mp hb with ⟨i, hi, rfl⟩
          exact hfr1 i (List.mem_range.mp hi) hau
      have hu1fr : FreshNames (delCol u n1 ++ (List.range w).map (fun i =>
          (⟨n1 ++ "_" ++ toString (i + 1),
            ColData.scalar (vals.map (fun r => r.getD i default))⟩ : Col α))) := by
        intro c hc i hi
        rcases List.mem_append.mp hc with hcd | hcg
        · have hcu : c ∈ u := (mem_delCol hcd).1
          have hcne : c.name ≠ n1 := (mem_delCol hcd).2
          rw [colnames_append]
          rw [List.mem_append]
          push_neg
          constructor
          · intro hmem
            exact hfr c hcu i hi (colnames_delCol_subset hmem)
          · intro hmem
            unfold colnames at hmem
            rw [List.map_map] at hmem
            rcases List.mem_map.mp hmem with ⟨j, hj, hje⟩
            have heq : genName c.name i = genName vc1.name j := by
              rw [hn1]
              exact hje.symm
            exact hcne ((hdg c hcu vc1 hvc1mem i hi j
              (by rw [hwid]; exact List.mem_range.mp hj) heq).1.trans hn1)
        · rcases List.mem_map.mp hcg with ⟨j, _, rfl⟩
          simp [widthOf] at hi
      have hu1dg : DistinctGen (delCol u n1 ++ (List.range w).map (fun i =>
          (⟨n1 ++ "_" ++ toString (i + 1),
            ColData.scalar (vals.map (fun r => r.getD i default))⟩ : Col α))) := by
        intro c hc c2 hc2 i hi j hj he
        rcases List.mem_append.mp hc with hcd | hcg
        · rcases List.mem_append.mp hc2 with hcd2 | hcg2
          · exact hdg c (mem_delCol hcd).1 c2 (mem_delCol hcd2).1 i hi j hj he
          · rcases List.mem_map.mp hcg2 with ⟨j2, _, rfl⟩
            simp [widthOf] at hj
        · rcases List.mem_map.mp hcg with ⟨i2, _, rfl⟩
          simp [widthOf] at hi
      have hGfil : (((List.range w).map (fun i =>
          (⟨n1 ++ "_" ++ toString (i + 1),
            ColData.scalar (vals.map (fun r => r.getD i default))⟩ : Col α))).filter
          (fun c => isVec c.data)) = [] := by
        rw [List.filter_eq_nil_iff]
        intro c hc
        simp [hGscalar c hc]
      have hvfil : ((u.filter (fun c => isVec c.data)).filter
          (fun c => c.name ≠ n1)) = vcs := by
        rw [hv]
        rw [List.filter_cons]
        have hvc1n : ¬((decide (¬vc1.name = n1)) = true) := by simp [hn1]
        rw [if_neg hvc1n]
        rw [List.filter_eq_self.mpr (by
          intro c hc
          simpa using hvcsne c hc)]
      have hu1v : ((delCol u n1 ++ (List.range w).map (fun i =>
          (⟨n1 ++ "_" ++ toString (i + 1),
            ColData.scalar (vals.map (fun r => r.getD i default))⟩ : Col α))).filter
          (fun c => isVec c.data)) = vcs := by
        rw [List.filter_append, hGfil, List.append_nil]
        rw [filter_delCol_comm]
        exact hvfil
      have hscne : ∀ c ∈ u.filter (fun c => !(isVec c.data)), c.name ≠ n1 := by
        intro c hc he
        have hcu : c ∈ u := (List.mem_filter.mp hc).1
        have hsc : (!(isVec c.data)) = true := (List.mem_filter.mp hc).2
        have hceq : c = vc1 := eq_of_mem_of_name_eq hnd hcu hvc1mem (by rw [he, hn1])
        rw [hceq] at hsc
        rw [hvc1vec] at hsc
        cases hsc
      have hu1s : ((delCol u n1 ++ (List.range w).map (fun i =>
          (⟨n1 ++ "_" ++ toString (i + 1),
            ColData.scalar (vals.map (fun r => r.getD i default))⟩ : Col α))).filter
          (fun c => !(isVec c.data))) =
          u.filter (fun c => !(isVec c.data)) ++ (List.range w).map (fun i =>
          (⟨n1 ++ "_" ++ toString (i + 1),
            ColData.scalar (vals.map (fun r => r.getD i default))⟩ : Col α)) := by
        rw [List.filter_append]
        congr 1
        · rw [filter_delCol_comm]
          rw [List.filter_eq_self.mpr (by
            intro c hc
            simpa using hscne c hc)]
        · rw [List.filter_eq_self]
          intro c hc
          rw [hGscalar c hc]
          rfl
      have hG : sliceGroup vc1 = (List.range w).map (fun i =>
          (⟨n1 ++ "_" ++ toString (i + 1),
            ColData.scalar (vals.map (fun r => r.getD i default))⟩ : Col α)) := by
        unfold sliceGroup
        simp only [hw]
        unfold genName
        rw [hn1]
      rw [ih _ hu1nd hu1fr hu1dg (by rw [hu1v]; exact hrest)]
      unfold flattenSpec
      rw [hu1v, hu1s, hv]
      rw [List.flatMap_cons]
      rw [hG]
      rw [List.append_assoc]

/-- C1 (amended): CONFIRMED in general form. For every tabular unit (distinct
column names, and no pre-existing column named like a generated slice name)
containing columns whose cells are fixed-width arrays, each such column of
length k is replaced by k scalar columns named `{original}_1 .. {original}_k`,
in order, but the replacements are appended at the end of the column list
rather than placed at the original column's position: the flattened table is
the scalar columns in native order followed by each array column's slice
group, the groups in native column order. -/
theorem C1_flatten_appends_at_end {α : Type} [Inhabited α] (t : Table α)
    (hnd : (colnames t).Nodup) (hfr : FreshNames t) (hdg : DistinctGen t) :
    fix_multi_dim_tables t = flattenSpec t := by
  unfold fix_multi_dim_tables
  exact foldl_flattenOne_eq_flattenSpec (multiDimNames t) t hnd hfr hdg
    (multiDimNames_eq t hnd).symm

/-- Witness for C1 at the spec's own example unit: a 3-element vector column
POS followed by a scalar column FLUX flattens to
`[FLUX, POS_1, POS_2, POS_3]`. -/
theorem C1_flatten_appends_at_end_witness :
    ((colnames [(⟨"POS", ColData.vector 3 [[Jval.num 1, Jval.num 2, Jval.num 3]]⟩ : Col Jval),
        ⟨"FLUX", ColData.scalar [Jval.num 4]⟩]).Nodup ∧
      FreshNames [(⟨"POS", ColData.vector 3 [[Jval.num 1, Jval.num 2, Jval.num 3]]⟩ : Col Jval),
        ⟨"FLUX", ColData.scalar [Jval.num 4]⟩] ∧
      DistinctGen [(⟨"POS", ColData.vector 3 [[Jval.num 1, Jval.num 2, Jval.num 3]]⟩ : Col Jval),
        ⟨"FLUX", ColData.scalar [Jval.num 4]⟩]) ∧
    fix_multi_dim_tables
        [(⟨"POS", ColData.vector 3 [[Jval.num 1, Jval.num 2, Jval.num 3]]⟩ : Col Jval),
         ⟨"FLUX", ColData.scalar [Jval.num 4]⟩] =
      flattenSpec
        [(⟨"POS", ColData.vector 3 [[Jval.num 1, Jval.num 2, Jval.num 3]]⟩ : Col Jval),
         ⟨"FLUX", ColData.scalar [Jval.num 4]⟩] ∧
    flattenSpec
        [(⟨"POS", ColData.vector 3 [[Jval.num 1, Jval.num 2, Jval.num 3]]⟩ : Col Jval),
         ⟨"FLUX", ColData.scalar [Jval.num 4]⟩] =
      [⟨"FLUX", ColData.scalar [Jval.num 4]⟩,
       ⟨"POS_1", ColData.scalar [Jval.num 1]⟩,
       ⟨"POS_2", ColData.scalar [Jval.num 2]⟩,
       ⟨"POS_3", ColData.scalar [Jval.num 3]⟩] :=
  ⟨⟨by decide, by decide, by decide⟩,
   C1_flatten_appends_at_end _ (by decide) (by decide) (by decide),
   rfl⟩
